import Mathlib

/-!
Verification of the ida-claude agent core: a shallow embedding of
`ida_claude/client.py` (stream decoder, cache annotation) and
`ida_claude/loop.py` (agent orchestration loop) in Lean 4, together with
theorems settling the behavioural claims about them.

Conventions:
* Python dicts holding JSON data are modelled by the inductive `Json`.
* `json.dumps(x, sort_keys=True)` is modelled by `dumpsSorted`.
* `json.loads` is an external library routine; the decoder is parameterised
  by an abstract parse oracle `parse : String → Option Json` (`none` models
  a `JSONDecodeError`).
* The asynchronous `threading.Event` cancellation flag is modelled by a
  poll schedule `cancelAt : Option Nat`: the flag reads `true` at the k-th
  poll and every later one (an event, once set, stays set).
-/

namespace IdaClaude

/-- JSON values, modelling the Python dicts/lists/scalars that flow through
`tool_call.input`, tool results and message content. -/
inductive Json where
  | null : Json
  | bool (b : Bool) : Json
  | num (n : Int) : Json
  | str (s : String) : Json
  | arr (elems : List Json) : Json
  | obj (fields : List (String × Json)) : Json
deriving Repr

/-- Escape a character the way `json.dumps` escapes string content
(quotes, backslashes and the common control characters). -/
def escapeChar (c : Char) : String :=
  if c = '"' then "\\\""
  else if c = '\\' then "\\\\"
  else if c = '\n' then "\\n"
  else if c = '\t' then "\\t"
  else if c = '\r' then "\\r"
  else String.singleton c

def escapeString (s : String) : String :=
  String.join (s.toList.map escapeChar)

/-- Stable insertion of a key-value pair into a key-sorted association
list (used to model `sort_keys=True`). -/
def insertByKey (x : String × Json) : List (String × Json) → List (String × Json)
  | [] => [x]
  | y :: ys => if x.1 < y.1 then x :: y :: ys else y :: insertByKey x ys

def sortByKey : List (String × Json) → List (String × Json)
  | [] => []
  | x :: xs => insertByKey x (sortByKey xs)

mutual
/-- Recursively sort every object's fields by key (the effect of
`sort_keys=True` applied to the whole document). -/
def sortJson : Json → Json
  | .null => .null
  | .bool b => .bool b
  | .num n => .num n
  | .str s => .str s
  | .arr xs => .arr (sortJsonList xs)
  | .obj fs => .obj (sortByKey (sortJsonFields fs))

def sortJsonList : List Json → List Json
  | [] => []
  | x :: xs => sortJson x :: sortJsonList xs

def sortJsonFields : List (String × Json) → List (String × Json)
  | [] => []
  | (k, v) :: fs => (k, sortJson v) :: sortJsonFields fs
end

mutual
/-- Serialise a `Json` value with Python's default separators
(`", "` between items, `": "` after keys). -/
def dumpsRaw : Json → String
  | .null => "null"
  | .bool true => "true"
  | .bool false => "false"
  | .num n => toString n
  | .str s => "\"" ++ escapeString s ++ "\""
  | .arr xs => "[" ++ String.intercalate ", " (dumpsRawList xs) ++ "]"
  | .obj fs => "\x7b" ++ String.intercalate ", " (dumpsRawFields fs) ++ "\x7d"

def dumpsRawList : List Json → List String
  | [] => []
  | x :: xs => dumpsRaw x :: dumpsRawList xs

def dumpsRawFields : List (String × Json) → List String
  | [] => []
  | (k, v) :: fs => ("\"" ++ escapeString k ++ "\": " ++ dumpsRaw v) :: dumpsRawFields fs
end

/-- `json.dumps(x, sort_keys=True)`. -/
def dumpsSorted (j : Json) : String :=
  dumpsRaw (sortJson j)

/-! ## Stream decoder (`client.py`, `ClaudeClient.chat_stream`) -/

/-- `ToolCall` dataclass of `client.py`. -/
structure ToolCall where
  id : String
  name : String
  input : Json
deriving Repr

/-- The low-level transport events consumed by `chat_stream` (the SDK's
`content_block_start` / `content_block_delta` / `content_block_stop` /
`message_stop` events, flattened over the fields the decoder reads). -/
inductive Event where
  | startToolUse (id name : String)
  | startThinking
  | startText
  | startRedacted (data : String)
  | deltaText (s : String)
  | deltaInputJson (s : String)
  | deltaThinking (s : String)
  | deltaSignature (s : String)
  | blockStop
  | messageStop
deriving Repr

/-- The `StreamDelta` values yielded by `chat_stream` (only the populated
fields of each variant are carried). -/
inductive StreamDelta where
  | toolStart (name id : String)
  | thinkingStart
  | textStart
  | redactedThinking (data : String)
  | toolUse (tc : ToolCall)
  | thinkingComplete (thinking : String) (signature : Option String)
  | textComplete (text : String)
  | usage (u : Json)
  | done
deriving Repr

/-- Content blocks recorded in `thinking_blocks` (only `thinking` and
`redacted_thinking` dicts are ever appended there). -/
inductive ThinkBlock where
  | thinking (text : String) (signature : Option String)
  | redacted (data : String)
deriving Repr

/-- The decoder's local mutable state in `chat_stream`: `content`,
`tool_calls`, `thinking_blocks`, `current_tool`, `current_thinking`,
`current_text_block`, plus the ordered list of yielded deltas. -/
structure DecState where
  content : String
  tool_calls : List ToolCall
  thinking_blocks : List ThinkBlock
  current_tool : Option (String × String × String)  -- (id, name, input_json)
  current_thinking : Option (String × Option String)  -- (thinking, signature)
  current_text_block : Bool
  yielded : List StreamDelta
deriving Repr

def DecState.init : DecState :=
  { content := "", tool_calls := [], thinking_blocks := [],
    current_tool := none, current_thinking := none,
    current_text_block := false, yielded := [] }

/-- `json.loads(input_json) if input_json else {}` with
`except json.JSONDecodeError: tool_input = {}`, for an abstract parse
oracle `parse` standing for `json.loads`. -/
def parseToolInput (parse : String → Option Json) (s : String) : Json :=
  if s = "" then .obj []
  else match parse s with
    | some v => v
    | none => .obj []

/-- One iteration of the `for event in stream` loop of `chat_stream`,
parameterised by the `json.loads` oracle. Mirrors `client.py` lines
277–364 branch for branch. -/
def decodeStep (parse : String → Option Json) (st : DecState) (e : Event) : DecState :=
  match e with
  | .startToolUse id name =>
      { st with current_tool := some (id, name, ""),
                yielded := st.yielded ++ [.toolStart name id] }
  | .startThinking =>
      { st with current_thinking := some ("", none),
                yielded := st.yielded ++ [.thinkingStart] }
  | .startText =>
      { st with current_text_block := true,
                yielded := st.yielded ++ [.textStart] }
  | .startRedacted data =>
      { st with thinking_blocks := st.thinking_blocks ++ [.redacted data],
                yielded := st.yielded ++ [.redactedThinking data] }
  | .deltaText s =>
      -- `content += event.delta.text` is unconditional: there is no
      -- `current_text_block` guard on this branch.
      { st with content := st.content ++ s }
  | .deltaInputJson s =>
      match st.current_tool with
      | some (id, name, j) => { st with current_tool := some (id, name, j ++ s) }
      | none => st
  | .deltaThinking s =>
      match st.current_thinking with
      | some (t, sig) => { st with current_thinking := some (t ++ s, sig) }
      | none => st
  | .deltaSignature s =>
      match st.current_thinking with
      | some (t, _) => { st with current_thinking := some (t, some s) }
      | none => st
  | .blockStop =>
      match st.current_tool with
      | some (id, name, j) =>
          let tc : ToolCall := { id := id, name := name, input := parseToolInput parse j }
          { st with tool_calls := st.tool_calls ++ [tc],
                    yielded := st.yielded ++ [.toolUse tc],
                    current_tool := none }
      | none =>
        match st.current_thinking with
        | some (t, sig) =>
            { st with yielded := st.yielded ++ [.thinkingComplete t sig],
                      thinking_blocks := st.thinking_blocks ++ [.thinking t sig],
                      current_thinking := none }
        | none =>
          if st.current_text_block then
            { st with yielded := st.yielded ++ [.textComplete st.content],
                      current_text_block := false }
          else st
  | .messageStop => st

/-- Run the decoder over a whole event stream, then perform the epilogue of
`chat_stream`: yield the final `usage` delta (when the final message
carried usage data) and the `done` delta. -/
def decodeStream (parse : String → Option Json) (finalUsage : Option Json)
    (events : List Event) : DecState :=
  let st := events.foldl (decodeStep parse) DecState.init
  let st : DecState := match finalUsage with
    | some u => { st with yielded := st.yielded ++ [.usage u] }
    | none => st
  { st with yielded := st.yielded ++ [.done] }

/-- The `Response` returned by `chat_stream` itself: `stop_reason` is
taken verbatim from the transport's final message. -/
structure Response where
  content : String
  tool_calls : List ToolCall
  stop_reason : String
  usage : Option Json
  thinking_blocks : Option (List ThinkBlock)
deriving Repr

def clientStreamResponse (st : DecState) (finalStopReason : String)
    (finalUsage : Option Json) : Response :=
  { content := st.content, tool_calls := st.tool_calls,
    stop_reason := finalStopReason, usage := finalUsage,
    thinking_blocks := if st.thinking_blocks.isEmpty then none else some st.thinking_blocks }

/-! ## Delta aggregation (`loop.py`, `AgentLoop._chat_stream`) -/

/-- Local state of `_chat_stream` while it consumes `StreamDelta`s:
`content`, `tool_calls`, `thinking_blocks`, `current_thinking`, `usage`. -/
structure AggState where
  content : String
  tool_calls : List ToolCall
  thinking_blocks : List ThinkBlock
  current_thinking : String × Option String
  usage : Option Json
deriving Repr

def AggState.init : AggState :=
  { content := "", tool_calls := [], thinking_blocks := [],
    current_thinking := ("", none), usage := none }

/-- Flush `current_thinking` into `thinking_blocks` when its text is
non-empty (the `if current_thinking["thinking"]:` pattern). -/
def AggState.flushThinking (st : AggState) : AggState :=
  if st.current_thinking.1 ≠ "" then
    { st with
      thinking_blocks :=
        st.thinking_blocks ++ [ThinkBlock.thinking st.current_thinking.1 st.current_thinking.2]
      current_thinking := ("", none) }
  else st

/-- The `for delta in self.client.chat_stream(...)` loop body of
`_chat_stream`; consumption stops at the `done` delta. -/
def aggLoop (st : AggState) : List StreamDelta → AggState
  | [] => st
  | d :: ds =>
    match d with
    | .toolStart _ _ => aggLoop st ds
    | .thinkingStart => aggLoop st ds
    | .textStart => aggLoop st ds
    | .thinkingComplete t sig =>
        -- `elif delta.type == "thinking_complete" and delta.thinking:`
        if t ≠ "" then aggLoop { st with current_thinking := (t, sig) } ds
        else aggLoop st ds
    | .textComplete t =>
        if t ≠ "" then aggLoop { st with content := t } ds
        else aggLoop st ds
    | .redactedThinking data =>
        if data ≠ "" then
          aggLoop { st with thinking_blocks := st.thinking_blocks ++ [.redacted data] } ds
        else aggLoop st ds
    | .toolUse tc =>
        let st := st.flushThinking
        aggLoop { st with tool_calls := st.tool_calls ++ [tc] } ds
    | .usage u => aggLoop { st with usage := some u } ds
    | .done => st.flushThinking

/-- `AgentLoop._chat_stream`: aggregate the deltas and derive
`stop_reason` locally: `"tool_use" if tool_calls else "end_turn"`. -/
def chatStreamAgg (ds : List StreamDelta) : Response :=
  let st := aggLoop AggState.init ds
  { content := st.content,
    tool_calls := st.tool_calls,
    stop_reason := if st.tool_calls.isEmpty then "end_turn" else "tool_use",
    usage := st.usage,
    thinking_blocks := if st.thinking_blocks.isEmpty then none else some st.thinking_blocks }

/-- Full streaming pipeline as the orchestrator sees it: transport events
are decoded by the client, the yielded deltas are aggregated by
`_chat_stream` into the `Response` used by the loop. -/
def streamPipeline (parse : String → Option Json) (finalUsage : Option Json)
    (events : List Event) : Response :=
  chatStreamAgg (decodeStream parse finalUsage events).yielded

/-! ## Conversation data model (`loop.py` message dicts) -/

/-- Content blocks stored in `self.messages` (dicts tagged by `"type"`). -/
inductive Block where
  | text (s : String)
  | toolUse (id name : String) (input : Json)
  | toolResult (tool_use_id : String) (content : String) (is_error : Bool)
  | thinking (t : String) (signature : Option String)
  | redactedThinking (data : String)
deriving Repr

/-- A content block together with its (optional) `cache_control` marker:
`cache = true` models the presence of `"cache_control": {"type": "ephemeral"}`. -/
structure CBlock where
  block : Block
  cache : Bool
deriving Repr

/-- `"content"` of a message dict: either a plain string or a block list. -/
inductive MsgContent where
  | str (s : String)
  | blocks (bs : List CBlock)
deriving Repr

structure Message where
  role : String
  content : MsgContent
deriving Repr

def ThinkBlock.toBlock : ThinkBlock → Block
  | .thinking t sig => .thinking t sig
  | .redacted data => .redactedThinking data

/-- `AgentLoop._build_assistant_content`: thinking blocks first, then the
text block (when non-empty), then the tool_use blocks; an all-empty
response becomes a single empty text block. -/
def buildAssistantContent (resp : Response) : List CBlock :=
  let thinks := (resp.thinking_blocks.getD []).map (fun tb => CBlock.mk tb.toBlock false)
  let txt := if resp.content ≠ "" then [CBlock.mk (.text resp.content) false] else []
  let uses := resp.tool_calls.map (fun tc => CBlock.mk (.toolUse tc.id tc.name tc.input) false)
  let content := thinks ++ txt ++ uses
  if content.isEmpty then [CBlock.mk (.text "") false] else content

/-- The annotation `_prepare_messages_with_cache` applies to the last
message: a plain-string content is promoted to a one-block list carrying
the marker; otherwise the last block of a non-empty block list is marked. -/
def annotateLastMessage (last : Message) : Message :=
  match last.content with
  | .str s => { last with content := .blocks [CBlock.mk (.text s) true] }
  | .blocks bs =>
    match bs.getLast? with
    | none => last
    | some b => { last with content := .blocks (bs.dropLast ++ [{ b with cache := true }]) }

/-- `AgentLoop._prepare_messages_with_cache`: deep-copy the stored
messages (pure values here) and add a cache marker to the last content
block of the last message. -/
def prepareMessagesWithCache (msgs : List Message) : List Message :=
  match msgs.getLast? with
  | none => []
  | some last => msgs.dropLast ++ [annotateLastMessage last]

/-! ## Client-side cache annotation (`client.py`) -/

/-- A tool definition dict as produced by `to_claude_format()` (payload
fields collapsed; `cache` models a `cache_control` key). -/
structure ToolDefC where
  name : String
  description : String
  input_schema : Json
  cache : Bool
deriving Repr

/-- `ClaudeClient._make_tools_with_cache`. -/
def makeToolsWithCache (enableCaching : Bool) (tools : List ToolDefC) :
    Option (List ToolDefC) :=
  if tools.isEmpty then none
  else if !enableCaching then some tools
  else
    match tools.getLast? with
    | none => some tools
    | some t => some (tools.dropLast ++ [{ t with cache := true }])

/-- Result of `ClaudeClient._make_system_blocks`: `None`, a plain string,
or a structured block list. -/
inductive SystemParam where
  | nothing
  | plain (s : String)
  | blocks (bs : List CBlock)
deriving Repr

/-- `ClaudeClient._make_system_blocks`. -/
def makeSystemBlocks (enableCaching : Bool) (system : String) : SystemParam :=
  if system = "" then .nothing
  else if !enableCaching then .plain system
  else .blocks [CBlock.mk (.text system) true]

/-! ## Agent orchestrator (`loop.py`, `AgentLoop.chat`) -/

/-- `LoopConfig` dataclass. -/
structure LoopConfig where
  max_iterations : Nat := 50
  max_consecutive_errors : Nat := 3
  doom_loop_threshold : Nat := 3
deriving Repr

/-- `ToolResult` dataclass of `loop.py`. -/
structure ToolRes where
  tool_call_id : String
  success : Bool
  result : Option Json
  error : Option String
deriving Repr

/-- Behaviour of the external `tools.execute(name, input)` call: return a
value, raise `KeyError`, or raise some other exception (type name and
message). -/
inductive ExecBehavior where
  | ok (v : Json)
  | keyError
  | raiseExc (ty msg : String)
deriving Repr

/-- The environment a `chat()` run interacts with: configuration, the
model transport (one decoded `Response` per request, indexed by request
count), the external tool executor, the optional approval callback, and
the cancellation schedule (`cancelAt = some k`: the `threading.Event`
reads set from the k-th poll of this `chat()` call onwards). -/
structure Env where
  cfg : LoopConfig
  model : Nat → Response
  execTool : String → Json → ExecBehavior
  approve : Option (ToolCall → Bool)
  cancelAt : Option Nat

/-- One read of `self._cancelled.is_set()`, the i-th poll of this run. -/
def readCancel (env : Env) (i : Nat) : Bool :=
  match env.cancelAt with
  | some k => decide (k ≤ i)
  | none => false

/-- Orchestrator state threaded through a `chat()` run: the conversation,
the doom-loop sliding window, plus instrumentation counters (number of
polls of the cancel flag, number of model requests issued) and the trace
of calls actually handed to the Tool Dispatcher. -/
structure AgentState where
  messages : List Message
  recent : List (String × String)
  polls : Nat
  reqs : Nat
  dispatches : List ToolCall
deriving Repr

/-- `AgentLoop._is_doom_loop`: count occurrences of the call's signature
in the window, record the signature (trimming the window to 10), and
report whether the count reached the threshold. -/
def isDoomLoop (threshold : Nat) (recent : List (String × String)) (tc : ToolCall) :
    Bool × List (String × String) :=
  let sig := (tc.name, dumpsSorted tc.input)
  let recentSame := (recent.filter (fun c => c = sig)).length
  let r1 := recent ++ [sig]
  let r2 := if r1.length > 10 then r1.drop 1 else r1
  (decide (recentSame ≥ threshold), r2)

/-- `AgentLoop._execute_tool`: normalize the executor's outcome. -/
def executeTool (env : Env) (tc : ToolCall) : ToolRes :=
  match env.execTool tc.name tc.input with
  | .ok v =>
      { tool_call_id := tc.id, success := true, result := some v, error := none }
  | .keyError =>
      { tool_call_id := tc.id, success := false, result := none,
        error := some ("Unknown tool: " ++ tc.name) }
  | .raiseExc ty msg =>
      { tool_call_id := tc.id, success := false, result := none,
        error := some (ty ++ ": " ++ msg) }

def rejectedResult (id : String) : ToolRes :=
  { tool_call_id := id, success := false, result := none,
    error := some "Tool call rejected by user" }

def doomResult (id : String) : ToolRes :=
  { tool_call_id := id, success := false, result := none,
    error := some "Detected repeated identical tool call. Please try a different approach." }

def cancelledResult (id : String) : ToolRes :=
  { tool_call_id := id, success := false, result := none,
    error := some "Cancelled by user" }

/-- How the `for tool_call in response.tool_calls` loop ended. -/
inductive BatchExit where
  | normal
  | stopped (finalResponse : String)
  | cancelledBreak
deriving Repr

/-- The approval gate: `true` when an approval callback is set and it
returns `False` for this call. -/
def approvalDenied (env : Env) (tc : ToolCall) : Bool :=
  match env.approve with
  | some f => ! f tc
  | none => false

/-- The `for tool_call in response.tool_calls` loop (`loop.py` 250–298):
threads the accumulated `tool_results`, the `consecutive_errors` counter
and the orchestrator state, and reports how the loop ended. -/
def processCalls (env : Env) :
    List ToolCall → List ToolRes → Nat → AgentState →
    List ToolRes × Nat × AgentState × BatchExit
  | [], acc, ce, st => (acc, ce, st, .normal)
  | tc :: rest, acc, ce, st =>
    -- `if self._cancelled.is_set(): should_stop = True; break`
    let c := readCancel env st.polls
    let st1 : AgentState := { st with polls := st.polls + 1 }
    if c then (acc, ce, st1, .cancelledBreak)
    else
      -- approval gate: on denial append an error result and `continue`
      if approvalDenied env tc then
        processCalls env rest (acc ++ [rejectedResult tc.id]) ce st1
      else
        let dc := isDoomLoop env.cfg.doom_loop_threshold st1.recent tc
        let st2 : AgentState := { st1 with recent := dc.2 }
        let r : ToolRes := if dc.1 then doomResult tc.id else executeTool env tc
        let st3 : AgentState :=
          if dc.1 then st2 else { st2 with dispatches := st2.dispatches ++ [tc] }
        let acc2 := acc ++ [r]
        if r.success then
          processCalls env rest acc2 0 st3
        else
          let ce2 := ce + 1
          if ce2 ≥ env.cfg.max_consecutive_errors then
            (acc2, ce2, st3,
             .stopped ("Stopped due to repeated errors: " ++ r.error.getD "None"))
          else
            processCalls env rest acc2 ce2 st3

/-- The state after the non-cancelled, non-denied handling of one call:
window updated, dispatch recorded unless the doom check fired. -/
def afterCallState (env : Env) (tc : ToolCall) (st : AgentState) : AgentState :=
  let dc := isDoomLoop env.cfg.doom_loop_threshold st.recent tc
  if dc.1 then { st with recent := dc.2 }
  else { st with recent := dc.2, dispatches := st.dispatches ++ [tc] }

/-- The result produced for one non-cancelled, non-denied call. -/
def callResult (env : Env) (tc : ToolCall) (st : AgentState) : ToolRes :=
  if (isDoomLoop env.cfg.doom_loop_threshold st.recent tc).1 then doomResult tc.id
  else executeTool env tc

/-- `loop.py` 300–313: when the batch stopped early and the cancel flag
is (still) set, append `"Cancelled by user"` results for every call whose
id has no result yet. Evaluating `self._cancelled.is_set()` here is one
more poll (Python short-circuits: it happens only when `should_stop`). -/
def backfillCancelled (env : Env) (calls : List ToolCall) (results : List ToolRes)
    (st : AgentState) (shouldStop : Bool) : List ToolRes × AgentState :=
  if shouldStop then
    let c := readCancel env st.polls
    let st1 : AgentState := { st with polls := st.polls + 1 }
    if c then
      let executedIds := results.map (fun r => r.tool_call_id)
      (results ++
        (calls.filter (fun tc => ! executedIds.contains tc.id)).map
          (fun tc => cancelledResult tc.id), st1)
    else (results, st1)
  else (results, st)

/-- `loop.py` 316–334: serialize one `ToolResult` into the `content`
string of its `tool_result` block. -/
def toolResultContent (r : ToolRes) : String :=
  if r.success then
    match r.result with
    | some (.str s) => s
    | some j => dumpsRaw j
    | none => dumpsRaw .null
  else "Error: " ++ r.error.getD "None"

def toolResultBlock (r : ToolRes) : CBlock :=
  CBlock.mk (.toolResult r.tool_call_id (toolResultContent r) (! r.success)) false

/-- How a `chat()` run terminated (instrumentation of the control path:
which `break`/return was taken). -/
inductive ChatExit where
  | maxIterations
  | cancelledTop
  | endTurn
  | errorStop
  | cancelledBatch
deriving Repr, DecidableEq

/-- The `while iteration < self.config.max_iterations` loop of `chat()`,
by fuel on the remaining iterations. Returns the final response text, the
final state and which exit was taken. -/
def chatLoop (env : Env) : Nat → Nat → AgentState → String × AgentState × ChatExit
  | 0, _, st => ("", st, .maxIterations)
  | fuel + 1, ce, st =>
    let c := readCancel env st.polls
    let st1 : AgentState := { st with polls := st.polls + 1 }
    if c then ("[Cancelled by user]", st1, .cancelledTop)
    else
      let resp := env.model st1.reqs
      let st2 : AgentState :=
        { st1 with
          reqs := st1.reqs + 1
          messages := st1.messages ++ [Message.mk "assistant" (.blocks (buildAssistantContent resp))] }
      if !(resp.stop_reason == "tool_use") || resp.tool_calls.isEmpty then
        (resp.content, st2, .endTurn)
      else
        let pc := processCalls env resp.tool_calls [] ce st2
        let results := pc.1
        let ce2 := pc.2.1
        let st3 := pc.2.2.1
        let bexit := pc.2.2.2
        let shouldStop : Bool := match bexit with
          | .normal => false
          | _ => true
        let bf := backfillCancelled env resp.tool_calls results st3 shouldStop
        let trc := bf.1.map toolResultBlock
        let st4 : AgentState :=
          if trc.isEmpty then bf.2
          else { bf.2 with messages := bf.2.messages ++ [Message.mk "user" (.blocks trc)] }
        match bexit with
        | .normal => chatLoop env fuel ce2 st4
        | .stopped fr => (fr, st4, .errorStop)
        | .cancelledBreak => ("", st4, .cancelledBatch)

/-- `AgentLoop.chat`: append the user message, reset the cancellation
flag (poll and request counters start at 0 for this run), and run the
iteration loop with `consecutive_errors = 0`. -/
def chat (env : Env) (msgs0 : List Message) (recent0 : List (String × String))
    (userMessage : String) : String × AgentState × ChatExit :=
  let st0 : AgentState :=
    { messages := msgs0 ++ [Message.mk "user" (.str userMessage)],
      recent := recent0, polls := 0, reqs := 0, dispatches := [] }
  chatLoop env env.cfg.max_iterations 0 st0

/-! ## Structural validity of the conversation -/

/-- Ids of the `tool_use` blocks of a message. -/
def useIds (m : Message) : List String :=
  match m.content with
  | .str _ => []
  | .blocks bs => bs.filterMap (fun cb =>
      match cb.block with
      | .toolUse id _ _ => some id
      | _ => none)

/-- Ids referenced by the `tool_result` blocks of a message. -/
def resultIds (m : Message) : List String :=
  match m.content with
  | .str _ => []
  | .blocks bs => bs.filterMap (fun cb =>
      match cb.block with
      | .toolResult id _ _ => some id
      | _ => none)

/-- A conversation is structurally valid when every `tool_use` block of a
message is matched (by id) by a `tool_result` block in the immediately
following message. -/
def structValidB : List Message → Bool
  | [] => true
  | [m] => (useIds m).isEmpty
  | m :: m' :: rest =>
      (useIds m).all (fun i => (resultIds m').contains i) && structValidB (m' :: rest)

/-! ## Helper lemmas: delta aggregation -/

/-- The tool calls carried by the deltas consumed before the first
`done` (reference extraction, independent of `aggLoop`). -/
def collectCalls : List StreamDelta → List ToolCall
  | [] => []
  | .done :: _ => []
  | .toolUse tc :: ds => tc :: collectCalls ds
  | _ :: ds => collectCalls ds

theorem flushThinking_tool_calls (st : AggState) :
    st.flushThinking.tool_calls = st.tool_calls := by
  unfold AggState.flushThinking
  split <;> rfl

theorem aggLoop_tool_calls (ds : List StreamDelta) :
    ∀ st : AggState, (aggLoop st ds).tool_calls = st.tool_calls ++ collectCalls ds := by
  induction ds with
  | nil => intro st; simp [aggLoop, collectCalls]
  | cons d ds ih =>
    intro st
    cases d with
    | toolStart n i => simpa [aggLoop, collectCalls] using ih st
    | thinkingStart => simpa [aggLoop, collectCalls] using ih st
    | textStart => simpa [aggLoop, collectCalls] using ih st
    | thinkingComplete t sig =>
      simp only [aggLoop, collectCalls]
      split <;> simp [ih]
    | textComplete t =>
      simp only [aggLoop, collectCalls]
      split <;> simp [ih]
    | redactedThinking data =>
      simp only [aggLoop, collectCalls]
      split <;> simp [ih]
    | toolUse tc =>
      simp only [aggLoop, collectCalls]
      rw [ih]
      simp [flushThinking_tool_calls]
    | usage u => simp [aggLoop, collectCalls, ih]
    | done => simp [aggLoop, collectCalls, flushThinking_tool_calls]

/-- `true` when the event stream opens no `tool_use` block. -/
def noToolStarts (events : List Event) : Bool :=
  events.all (fun e => match e with
    | .startToolUse _ _ => false
    | _ => true)

/-- `true` when the delta list carries neither a `tool_use` nor a `done`
delta. -/
def noCallOrDone (ds : List StreamDelta) : Bool :=
  ds.all (fun d => match d with
    | .toolUse _ => false
    | .done => false
    | _ => true)

theorem collectCalls_append_of_noCallOrDone (xs ys : List StreamDelta)
    (h : noCallOrDone xs = true) : collectCalls (xs ++ ys) = collectCalls ys := by
  induction xs with
  | nil => rfl
  | cons d xs ih =>
    simp only [noCallOrDone, List.all_cons, Bool.and_eq_true] at h
    cases d <;> simp_all [collectCalls, noCallOrDone]

theorem decode_no_tool_invariant (parse : String → Option Json) (events : List Event)
    (h : noToolStarts events = true) :
    ∀ st : DecState, st.current_tool = none → noCallOrDone st.yielded = true →
      (events.foldl (decodeStep parse) st).current_tool = none ∧
      noCallOrDone (events.foldl (decodeStep parse) st).yielded = true ∧
      (events.foldl (decodeStep parse) st).tool_calls = st.tool_calls := by
  induction events with
  | nil => intro st h1 h2; exact ⟨h1, h2, rfl⟩
  | cons e es ih =>
    intro st h1 h2
    simp only [noToolStarts, List.all_cons, Bool.and_eq_true] at h
    have hes : noToolStarts es = true := h.2
    simp only [List.foldl_cons]
    cases e with
    | startToolUse id name => simp at h
    | startThinking =>
      exact ih hes _ (by simp [decodeStep, h1]) (by simp [decodeStep, noCallOrDone] at h2 ⊢; exact h2)
    | startText =>
      exact ih hes _ (by simp [decodeStep, h1]) (by simp [decodeStep, noCallOrDone] at h2 ⊢; exact h2)
    | startRedacted data =>
      exact ih hes _ (by simp [decodeStep, h1]) (by simp [decodeStep, noCallOrDone] at h2 ⊢; exact h2)
    | deltaText s =>
      exact ih hes _ (by simp [decodeStep, h1]) (by simpa [decodeStep] using h2)
    | deltaInputJson s =>
      have : decodeStep parse st (.deltaInputJson s) = st := by
        simp [decodeStep, h1]
      rw [this]; exact ih hes st h1 h2
    | deltaThinking s =>
      cases hct : st.current_thinking with
      | none =>
        have hstep : decodeStep parse st (.deltaThinking s) = st := by simp [decodeStep, hct]
        rw [hstep]; exact ih hes st h1 h2
      | some p =>
        have hstep : decodeStep parse st (.deltaThinking s) =
            { st with current_thinking := some (p.1 ++ s, p.2) } := by
          simp [decodeStep, hct]
        rw [hstep]; exact ih hes _ h1 h2
    | deltaSignature s =>
      cases hct : st.current_thinking with
      | none =>
        have hstep : decodeStep parse st (.deltaSignature s) = st := by simp [decodeStep, hct]
        rw [hstep]; exact ih hes st h1 h2
      | some p =>
        have hstep : decodeStep parse st (.deltaSignature s) =
            { st with current_thinking := some (p.1, some s) } := by
          simp [decodeStep, hct]
        rw [hstep]; exact ih hes _ h1 h2
    | blockStop =>
      cases hct : st.current_thinking with
      | some p =>
        have hstep : decodeStep parse st .blockStop =
            { st with yielded := st.yielded ++ [.thinkingComplete p.1 p.2],
                      thinking_blocks := st.thinking_blocks ++ [.thinking p.1 p.2],
                      current_thinking := none } := by
          simp [decodeStep, h1, hct]
        rw [hstep]
        exact ih hes _ h1 (by simp [noCallOrDone] at h2 ⊢; exact h2)
      | none =>
        by_cases htb : st.current_text_block
        · have hstep : decodeStep parse st .blockStop =
              { st with yielded := st.yielded ++ [.textComplete st.content],
                        current_text_block := false } := by
            simp [decodeStep, h1, hct, htb]
          rw [hstep]
          exact ih hes _ h1 (by simp [noCallOrDone] at h2 ⊢; exact h2)
        · have hstep : decodeStep parse st .blockStop = st := by
            simp [decodeStep, h1, hct, htb]
          rw [hstep]; exact ih hes st h1 h2
    | messageStop =>
      have : decodeStep parse st .messageStop = st := by simp [decodeStep]
      rw [this]; exact ih hes st h1 h2

/-- Concatenation of the input-json fragments, as `+=` accumulates them. -/
def concatAll : List String → String
  | [] => ""
  | s :: ss => s ++ concatAll ss

theorem foldl_deltaInputJson (parse : String → Option Json) (ds : List String) :
    ∀ (st : DecState) (id name j : String), st.current_tool = some (id, name, j) →
      (ds.map Event.deltaInputJson).foldl (decodeStep parse) st =
        { st with current_tool := some (id, name, j ++ concatAll ds) } := by
  induction ds with
  | nil =>
    intro st id name j h
    simp only [List.map_nil, List.foldl_nil, concatAll, String.append_empty]
    cases st; simp_all
  | cons s ss ih =>
    intro st id name j h
    simp only [List.map_cons, List.foldl_cons]
    have hstep : decodeStep parse st (.deltaInputJson s) =
        { st with current_tool := some (id, name, j ++ s) } := by
      simp [decodeStep, h]
    rw [hstep, ih _ id name (j ++ s) rfl]
    simp [concatAll, String.append_assoc]

/-- Decoding a single complete `tool_use` block appends exactly one
`ToolCall` whose input is the parse of the concatenated fragments. -/
theorem decode_tool_use_block (parse : String → Option Json) (st : DecState)
    (id name : String) (ds : List String) :
    ((Event.startToolUse id name :: ds.map Event.deltaInputJson ++ [Event.blockStop]).foldl
        (decodeStep parse) st).tool_calls =
      st.tool_calls ++ [⟨id, name, parseToolInput parse (concatAll ds)⟩] := by
  simp only [List.foldl_cons, List.foldl_append]
  have hstart : decodeStep parse st (.startToolUse id name) =
      { st with current_tool := some (id, name, ""),
                yielded := st.yielded ++ [.toolStart name id] } := by
    simp [decodeStep]
  rw [hstart, foldl_deltaInputJson parse ds _ id name "" rfl]
  simp [decodeStep, String.empty_append]

/-- C5: the aggregated `Response.stop_reason` of `_chat_stream` is
`"tool_use"` exactly when at least one tool call was emitted during the
turn (it is derived locally, for every delta stream, rather than copied
from the transport); and for any event stream that opens no `tool_use`
block — in particular one with a single `text` block and no tool or
thinking blocks — the pipeline yields `stop_reason = "end_turn"` and an
empty `tool_calls` list. -/
theorem stopReason_derived_locally :
    (∀ ds : List StreamDelta,
        (chatStreamAgg ds).tool_calls = collectCalls ds ∧
        ((chatStreamAgg ds).stop_reason = "tool_use" ↔ collectCalls ds ≠ [])) ∧
    (∀ (parse : String → Option Json) (fu : Option Json) (events : List Event),
        noToolStarts events = true →
        (streamPipeline parse fu events).stop_reason = "end_turn" ∧
        (streamPipeline parse fu events).tool_calls = []) := by
  have hagg : ∀ ds : List StreamDelta,
      (chatStreamAgg ds).tool_calls = collectCalls ds ∧
      ((chatStreamAgg ds).stop_reason = "tool_use" ↔ collectCalls ds ≠ []) := by
    intro ds
    have h : (aggLoop AggState.init ds).tool_calls = collectCalls ds := by
      simpa [AggState.init] using aggLoop_tool_calls ds AggState.init
    refine ⟨by simp only [chatStreamAgg]; exact h, ?_⟩
    simp only [chatStreamAgg]
    rw [h]
    cases hc : collectCalls ds with
    | nil => simp
    | cons c cs => simp
  refine ⟨hagg, ?_⟩
  intro parse fu events h
  have hinv := decode_no_tool_invariant parse events h DecState.init rfl rfl
  have hcollect : collectCalls (decodeStream parse fu events).yielded = [] := by
    simp only [decodeStream]
    cases fu with
    | none =>
      rw [collectCalls_append_of_noCallOrDone _ _ hinv.2.1]
      rfl
    | some u =>
      rw [List.append_assoc, collectCalls_append_of_noCallOrDone _ _ hinv.2.1]
      rfl
  have hcalls : (aggLoop AggState.init (decodeStream parse fu events).yielded).tool_calls = [] := by
    have := aggLoop_tool_calls (decodeStream parse fu events).yielded AggState.init
    simpa [AggState.init, hcollect] using this
  constructor
  · simp [streamPipeline, chatStreamAgg, hcalls]
  · simp [streamPipeline, chatStreamAgg, hcalls]

/-- C5 witness: a stream with exactly one text block and no tool or
thinking blocks decodes to `stop_reason = "end_turn"` and no tool calls. -/
theorem stopReason_derived_locally_witness :
    noToolStarts [Event.startText, Event.deltaText "hi", Event.blockStop,
        Event.messageStop] = true ∧
    (streamPipeline (fun _ => none) none
        [Event.startText, Event.deltaText "hi", Event.blockStop,
         Event.messageStop]).stop_reason = "end_turn" ∧
    (streamPipeline (fun _ => none) none
        [Event.startText, Event.deltaText "hi", Event.blockStop,
         Event.messageStop]).tool_calls = [] :=
  ⟨rfl,
   (stopReason_derived_locally.2 (fun _ => none) none
      [Event.startText, Event.deltaText "hi", Event.blockStop, Event.messageStop] rfl).1,
   (stopReason_derived_locally.2 (fun _ => none) none
      [Event.startText, Event.deltaText "hi", Event.blockStop, Event.messageStop] rfl).2⟩

/-- C6: finalizing a `tool_use` block emits exactly one `ToolCall`; its
input is the parse of the concatenated input deltas when they form valid
JSON, and the empty object when they are empty or unparsable; decoding is
a total function (it never raises). -/
theorem toolUse_input_parse_fallback (parse : String → Option Json) (st : DecState)
    (id name : String) (ds : List String) :
    (((Event.startToolUse id name :: ds.map Event.deltaInputJson ++ [Event.blockStop]).foldl
        (decodeStep parse) st).tool_calls =
      st.tool_calls ++ [⟨id, name, parseToolInput parse (concatAll ds)⟩]) ∧
    (∀ v, parse (concatAll ds) = some v → concatAll ds ≠ "" →
      parseToolInput parse (concatAll ds) = v) ∧
    (concatAll ds = "" ∨ parse (concatAll ds) = none →
      parseToolInput parse (concatAll ds) = Json.obj []) := by
  refine ⟨decode_tool_use_block parse st id name ds, ?_, ?_⟩
  · intro v hp hne
    simp [parseToolInput, hne, hp]
  · rintro (he | hp)
    · simp [parseToolInput, he]
    · by_cases he : concatAll ds = "" <;> simp [parseToolInput, he, hp]

/-- C6 witness: deltas `"\x7b\"a\":" ++ "1\x7d"` concatenate to valid
JSON and yield exactly that object; a lone invalid fragment yields the
empty object. -/
theorem toolUse_input_parse_fallback_witness :
    (((Event.startToolUse "t1" "get" ::
        (["\x7b\"a\":", "1\x7d"].map Event.deltaInputJson) ++ [Event.blockStop]).foldl
        (decodeStep (fun s => if s = "\x7b\"a\":1\x7d" then some (Json.obj [("a", Json.num 1)]) else none))
        DecState.init).tool_calls =
      [⟨"t1", "get", Json.obj [("a", Json.num 1)]⟩]) ∧
    parseToolInput (fun _ => none) "not json" = Json.obj [] := by
  constructor
  · have h := (toolUse_input_parse_fallback
      (fun s => if s = "\x7b\"a\":1\x7d" then some (Json.obj [("a", Json.num 1)]) else none)
      DecState.init "t1" "get" ["\x7b\"a\":", "1\x7d"]).1
    rw [h]
    rfl
  · exact (toolUse_input_parse_fallback (fun _ => none) DecState.init "t1" "get"
      ["not json"]).2.2 (Or.inr rfl)

/-- C9 is FALSE as stated: a `text` delta arriving with no open text
block is not ignored — `content += delta.text` runs unconditionally, so
the accumulated state changes. -/
theorem orphan_text_delta_changes_state :
    (decodeStep (fun _ => none) DecState.init (.deltaText "x")).content = "x" ∧
    DecState.init.content = "" ∧
    DecState.init.current_text_block = false ∧
    decodeStep (fun _ => none) DecState.init (.deltaText "x") ≠ DecState.init := by
  refine ⟨rfl, rfl, rfl, fun h => ?_⟩
  have hc := congrArg DecState.content h
  exact absurd hc (by decide)

/-- C9 (amended): a tool-input, thinking or signature delta arriving with
no open block of its kind leaves the decoder state completely unchanged
and never raises; a text delta, however, is always appended to the
cumulative content, whether or not a text block is open. -/
theorem orphan_delta_handling (parse : String → Option Json) (st : DecState) (s : String) :
    (st.current_tool = none → decodeStep parse st (.deltaInputJson s) = st) ∧
    (st.current_thinking = none → decodeStep parse st (.deltaThinking s) = st) ∧
    (st.current_thinking = none → decodeStep parse st (.deltaSignature s) = st) ∧
    decodeStep parse st (.deltaText s) = { st with content := st.content ++ s } := by
  refine ⟨?_, ?_, ?_, ?_⟩
  · intro h; simp [decodeStep, h]
  · intro h; simp [decodeStep, h]
  · intro h; simp [decodeStep, h]
  · simp [decodeStep]

/-- C9 amended witness at a concrete orphan-delta state. -/
theorem orphan_delta_handling_witness :
    decodeStep (fun _ => none) DecState.init (.deltaInputJson "zzz") = DecState.init ∧
    decodeStep (fun _ => none) DecState.init (.deltaThinking "zzz") = DecState.init ∧
    decodeStep (fun _ => none) DecState.init (.deltaSignature "zzz") = DecState.init :=
  ⟨(orphan_delta_handling (fun _ => none) DecState.init "zzz").1 rfl,
   (orphan_delta_handling (fun _ => none) DecState.init "zzz").2.1 rfl,
   (orphan_delta_handling (fun _ => none) DecState.init "zzz").2.2.1 rfl⟩

/-! ## Cache-annotation counting -/

/-- Number of blocks carrying a cache marker. -/
def cacheCount (bs : List CBlock) : Nat :=
  (bs.filter (fun b => b.cache)).length

def msgCacheCount (m : Message) : Nat :=
  match m.content with
  | .str _ => 0
  | .blocks bs => cacheCount bs

def toolCacheCount (ts : List ToolDefC) : Nat :=
  (ts.filter (fun t => t.cache)).length

def sysCacheCount : SystemParam → Nat
  | .nothing => 0
  | .plain _ => 0
  | .blocks bs => cacheCount bs

/-- `true` when the message's last content block carries the marker. -/
def lastBlockCached (m : Message) : Bool :=
  match m.content with
  | .str _ => false
  | .blocks bs => ((bs.getLast?).map (fun b => b.cache)).getD false

/-- A message the annotator can mark: plain-string content, or a
non-empty block list. -/
def annotatable (m : Message) : Prop :=
  match m.content with
  | .str _ => True
  | .blocks bs => bs ≠ []

theorem cacheCount_eq_zero_iff (bs : List CBlock) :
    cacheCount bs = 0 ↔ ∀ b ∈ bs, b.cache = false := by
  simp only [cacheCount, List.length_eq_zero, List.filter_eq_nil_iff]
  constructor
  · intro h b hb
    have := h b hb
    simpa using this
  · intro h b hb
    simp [h b hb]

/-- C7: with caching enabled, a non-empty system prompt, an unannotated
non-empty tool list and an unannotated conversation of at least two
messages whose last message is annotatable, the annotated request carries
exactly one cache marker per category — on the single system block, on
the last tool definition, and on the last content block of the last
message — and zero markers on every earlier message. -/
theorem cache_annotation_policy (system : String) (tools : List ToolDefC)
    (msgs : List Message)
    (hsys : system ≠ "")
    (htools : tools ≠ []) (hnc : ∀ t ∈ tools, t.cache = false)
    (hlen : 2 ≤ msgs.length) (hmc : ∀ m ∈ msgs, msgCacheCount m = 0)
    (hlast : ∃ lm, msgs.getLast? = some lm ∧ annotatable lm) :
    (makeSystemBlocks true system = .blocks [CBlock.mk (.text system) true] ∧
      sysCacheCount (makeSystemBlocks true system) = 1) ∧
    (∃ ts', makeToolsWithCache true tools = some ts' ∧
      toolCacheCount ts' = 1 ∧ toolCacheCount ts'.dropLast = 0 ∧
      ts'.length = tools.length) ∧
    (((prepareMessagesWithCache msgs).map msgCacheCount).sum = 1 ∧
      (∀ m ∈ (prepareMessagesWithCache msgs).dropLast, msgCacheCount m = 0) ∧
      (∃ lm, (prepareMessagesWithCache msgs).getLast? = some lm ∧
        lastBlockCached lm = true) ∧
      (prepareMessagesWithCache msgs).length = msgs.length) := by
  refine ⟨⟨?_, ?_⟩, ?_, ?_⟩
  · simp [makeSystemBlocks, hsys]
  · simp [makeSystemBlocks, hsys, sysCacheCount, cacheCount]
  · -- tools
    rcases List.eq_nil_or_concat tools with rfl | ⟨ti, t, rfl⟩
    · exact absurd rfl htools
    · refine ⟨ti ++ [{ t with cache := true }], ?_, ?_, ?_, by simp⟩
      · simp [makeToolsWithCache, List.getLast?_concat, List.dropLast_concat]
      · have hti : (ti.filter (fun t => t.cache)) = [] := by
          rw [List.filter_eq_nil_iff]
          intro a ha
          simp [hnc a (by simp [ha])]
        simp [toolCacheCount, List.filter_append, hti]
      · have hti : (ti.filter (fun t => t.cache)) = [] := by
          rw [List.filter_eq_nil_iff]
          intro a ha
          simp [hnc a (by simp [ha])]
        simp [toolCacheCount, List.dropLast_concat, hti]
  · -- messages
    rcases List.eq_nil_or_concat msgs with rfl | ⟨mi, lm, rfl⟩
    · simp at hlen
    · simp only [List.concat_eq_append] at hlen hmc hlast ⊢
      obtain ⟨lm', hlm', hann⟩ := hlast
      rw [List.getLast?_concat] at hlm'
      replace hlm' : lm = lm' := by injection hlm'
      subst hlm'
      have hprep : prepareMessagesWithCache (mi ++ [lm]) =
          mi ++ [annotateLastMessage lm] := by
        simp [prepareMessagesWithCache, List.getLast?_concat, List.dropLast_concat,
          annotateLastMessage]
      have hzero : ∀ m ∈ mi, msgCacheCount m = 0 := fun m hm => hmc m (by simp [hm])
      have hlmzero : msgCacheCount lm = 0 := hmc lm (by simp)
      have hone : msgCacheCount (annotateLastMessage lm) = 1 ∧
          lastBlockCached (annotateLastMessage lm) = true := by
        unfold annotateLastMessage
        cases hc : lm.content with
        | str s => simp [msgCacheCount, cacheCount, lastBlockCached]
        | blocks bs =>
          unfold annotatable at hann
          rw [hc] at hann
          rcases List.eq_nil_or_concat bs with rfl | ⟨bi, b, rfl⟩
          · exact absurd rfl hann
          · have hbz : msgCacheCount lm = cacheCount (bi ++ [b]) := by
              simp [msgCacheCount, hc]
            rw [hbz] at hlmzero
            have hbi : (bi.filter (fun x => x.cache)) = [] := by
              rw [List.filter_eq_nil_iff]
              intro a ha
              have := (cacheCount_eq_zero_iff _).mp hlmzero a (by simp [ha])
              simp [this]
            simp [List.getLast?_concat, List.dropLast_concat, msgCacheCount,
              cacheCount, lastBlockCached, List.filter_append, hbi]
      refine ⟨?_, ?_, ?_, by rw [hprep]; simp⟩
      · rw [hprep]
        simp only [List.map_append, List.sum_append, List.map_cons, List.map_nil]
        have : (mi.map msgCacheCount).sum = 0 := by
          apply List.sum_eq_zero
          intro x hx
          obtain ⟨m, hm, rfl⟩ := List.mem_map.mp hx
          exact hzero m hm
        simp [this, hone.1]
      · rw [hprep]
        intro m hm
        rw [List.dropLast_concat] at hm
        exact hzero m hm
      · exact ⟨annotateLastMessage lm, by rw [hprep]; simp [List.getLast?_concat], hone.2⟩

/-- C7 witness: a concrete two-message conversation, one tool and a
non-empty system prompt each end up with exactly one cache marker. -/
theorem cache_annotation_policy_witness :
    sysCacheCount (makeSystemBlocks true "sys") = 1 ∧
    (∃ ts', makeToolsWithCache true [ToolDefC.mk "t" "d" (Json.obj []) false] = some ts' ∧
      toolCacheCount ts' = 1) ∧
    ((prepareMessagesWithCache [Message.mk "user" (.str "a"),
        Message.mk "assistant" (.blocks [CBlock.mk (.text "hi") false])]).map
      msgCacheCount).sum = 1 := by
  have h := cache_annotation_policy "sys" [ToolDefC.mk "t" "d" (Json.obj []) false]
    [Message.mk "user" (.str "a"),
     Message.mk "assistant" (.blocks [CBlock.mk (.text "hi") false])]
    (by decide) (List.cons_ne_nil _ _)
    (by intro t ht
        simp only [List.mem_singleton] at ht
        subst ht
        rfl)
    (by decide)
    (by intro m hm
        simp only [List.mem_cons, List.not_mem_nil, or_false] at hm
        rcases hm with rfl | rfl <;> rfl)
    ⟨Message.mk "assistant" (.blocks [CBlock.mk (.text "hi") false]), rfl,
      by simp [annotatable]⟩
  obtain ⟨ts', hts', h1, _⟩ := h.2.1
  exact ⟨h.1.2, ⟨ts', hts', h1⟩, h.2.2.1⟩

/-! ## Helper lemmas: the tool-call batch loop -/

theorem readCancel_mono (env : Env) {i j : Nat} (h : readCancel env i = true)
    (hij : i ≤ j) : readCancel env j = true := by
  unfold readCancel at *
  cases hk : env.cancelAt with
  | none => rw [hk] at h; cases h
  | some k =>
    rw [hk] at h
    simp only [decide_eq_true_eq] at h ⊢
    omega

/-- Step equation: cancellation observed before the call. -/
theorem processCalls_cons_cancel (env : Env) (tc : ToolCall) (rest : List ToolCall)
    (acc : List ToolRes) (ce : Nat) (st : AgentState)
    (hc : readCancel env st.polls = true) :
    processCalls env (tc :: rest) acc ce st =
      (acc, ce, { st with polls := st.polls + 1 }, .cancelledBreak) := by
  simp [processCalls, hc]

/-- Step equation: the approval callback denies the call. -/
theorem processCalls_cons_denied (env : Env) (tc : ToolCall) (rest : List ToolCall)
    (acc : List ToolRes) (ce : Nat) (st : AgentState)
    (hc : readCancel env st.polls = false) (hd : approvalDenied env tc = true) :
    processCalls env (tc :: rest) acc ce st =
      processCalls env rest (acc ++ [rejectedResult tc.id]) ce
        { st with polls := st.polls + 1 } := by
  simp [processCalls, hc, hd]

/-- Step equation: the call goes through the doom check / dispatch path. -/
theorem processCalls_cons_exec (env : Env) (tc : ToolCall) (rest : List ToolCall)
    (acc : List ToolRes) (ce : Nat) (st : AgentState)
    (hc : readCancel env st.polls = false) (hd : approvalDenied env tc = false) :
    processCalls env (tc :: rest) acc ce st =
      (if (callResult env tc { st with polls := st.polls + 1 }).success then
        processCalls env rest (acc ++ [callResult env tc { st with polls := st.polls + 1 }]) 0
          (afterCallState env tc { st with polls := st.polls + 1 })
      else if ce + 1 ≥ env.cfg.max_consecutive_errors then
        (acc ++ [callResult env tc { st with polls := st.polls + 1 }], ce + 1,
          afterCallState env tc { st with polls := st.polls + 1 },
          .stopped ("Stopped due to repeated errors: " ++
            (callResult env tc { st with polls := st.polls + 1 }).error.getD "None"))
      else
        processCalls env rest (acc ++ [callResult env tc { st with polls := st.polls + 1 }])
          (ce + 1) (afterCallState env tc { st with polls := st.polls + 1 })) := by
  by_cases hdoom : (isDoomLoop env.cfg.doom_loop_threshold
      { st with polls := st.polls + 1 }.recent tc).1 <;>
    simp [processCalls, hc, hd, afterCallState, callResult, hdoom]

/-- The accumulator is only ever extended by the batch loop. -/
theorem processCalls_acc_prefix (env : Env) (calls : List ToolCall) :
    ∀ (acc : List ToolRes) (ce : Nat) (st : AgentState),
      ∃ extra, (processCalls env calls acc ce st).1 = acc ++ extra := by
  induction calls with
  | nil => intro acc ce st; exact ⟨[], by simp [processCalls]⟩
  | cons tc rest ih =>
    intro acc ce st
    by_cases hc : readCancel env st.polls = true
    · exact ⟨[], by rw [processCalls_cons_cancel env tc rest acc ce st hc]; simp⟩
    · have hc' : readCancel env st.polls = false := by simpa using hc
      by_cases hd : approvalDenied env tc = true
      · rw [processCalls_cons_denied env tc rest acc ce st hc' hd]
        obtain ⟨extra, hextra⟩ := ih (acc ++ [rejectedResult tc.id]) ce
          { st with polls := st.polls + 1 }
        exact ⟨rejectedResult tc.id :: extra, by simp [hextra]⟩
      · have hd' : approvalDenied env tc = false := by simpa using hd
        rw [processCalls_cons_exec env tc rest acc ce st hc' hd']
        set r := callResult env tc { st with polls := st.polls + 1 } with hr
        by_cases hs : r.success
        · simp only [hs, if_true]
          obtain ⟨extra, hextra⟩ := ih (acc ++ [r]) 0
            (afterCallState env tc { st with polls := st.polls + 1 })
          exact ⟨r :: extra, by simp [hextra]⟩
        · simp only [hs, Bool.false_eq_true, if_false]
          by_cases hth : ce + 1 ≥ env.cfg.max_consecutive_errors
          · simp only [hth, if_true]
            exact ⟨[r], by simp⟩
          · simp only [hth, if_false]
            obtain ⟨extra, hextra⟩ := ih (acc ++ [r]) (ce + 1)
              (afterCallState env tc { st with polls := st.polls + 1 })
            exact ⟨r :: extra, by simp [hextra]⟩

theorem callResult_id (env : Env) (tc : ToolCall) (st : AgentState) :
    (callResult env tc st).tool_call_id = tc.id := by
  unfold callResult
  split
  · rfl
  · unfold executeTool
    split <;> rfl

theorem afterCallState_polls (env : Env) (tc : ToolCall) (st : AgentState) :
    (afterCallState env tc st).polls = st.polls := by
  simp only [afterCallState]
  split <;> rfl

theorem processCalls_polls_le (env : Env) (calls : List ToolCall) :
    ∀ (acc : List ToolRes) (ce : Nat) (st : AgentState),
      st.polls ≤ (processCalls env calls acc ce st).2.2.1.polls := by
  induction calls with
  | nil => intro acc ce st; simp [processCalls]
  | cons tc rest ih =>
    intro acc ce st
    by_cases hc : readCancel env st.polls = true
    · rw [processCalls_cons_cancel env tc rest acc ce st hc]
      simp
    · have hc' : readCancel env st.polls = false := by simpa using hc
      by_cases hd : approvalDenied env tc = true
      · rw [processCalls_cons_denied env tc rest acc ce st hc' hd]
        have := ih (acc ++ [rejectedResult tc.id]) ce { st with polls := st.polls + 1 }
        simp at this
        omega
      · have hd' : approvalDenied env tc = false := by simpa using hd
        rw [processCalls_cons_exec env tc rest acc ce st hc' hd']
        set st3 := afterCallState env tc { st with polls := st.polls + 1 } with hst3
        have hp3 : st3.polls = st.polls + 1 := by
          rw [hst3, afterCallState_polls]
        by_cases hs : (callResult env tc { st with polls := st.polls + 1 }).success
        · simp only [hs, if_true]
          have := ih (acc ++ [callResult env tc { st with polls := st.polls + 1 }]) 0 st3
          omega
        · simp only [hs, Bool.false_eq_true, if_false]
          by_cases hth : ce + 1 ≥ env.cfg.max_consecutive_errors
          · simp only [hth, if_true]
            omega
          · simp only [hth, if_false]
            have := ih (acc ++ [callResult env tc { st with polls := st.polls + 1 }]) (ce + 1) st3
            omega

/-- A cancelled batch break means the flag was read `true` at a poll
index strictly below the final poll counter. -/
theorem processCalls_cancelledBreak_read (env : Env) (calls : List ToolCall) :
    ∀ (acc : List ToolRes) (ce : Nat) (st : AgentState),
      (processCalls env calls acc ce st).2.2.2 = .cancelledBreak →
      ∃ i, readCancel env i = true ∧ i < (processCalls env calls acc ce st).2.2.1.polls := by
  induction calls with
  | nil => intro acc ce st h; simp [processCalls] at h
  | cons tc rest ih =>
    intro acc ce st h
    by_cases hc : readCancel env st.polls = true
    · rw [processCalls_cons_cancel env tc rest acc ce st hc] at h ⊢
      exact ⟨st.polls, hc, by simp⟩
    · have hc' : readCancel env st.polls = false := by simpa using hc
      by_cases hd : approvalDenied env tc = true
      · rw [processCalls_cons_denied env tc rest acc ce st hc' hd] at h ⊢
        exact ih _ ce _ h
      · have hd' : approvalDenied env tc = false := by simpa using hd
        rw [processCalls_cons_exec env tc rest acc ce st hc' hd'] at h ⊢
        by_cases hs : (callResult env tc { st with polls := st.polls + 1 }).success
        · simp only [hs, if_true] at h ⊢
          exact ih _ 0 _ h
        · simp only [hs, Bool.false_eq_true, if_false] at h ⊢
          by_cases hth : ce + 1 ≥ env.cfg.max_consecutive_errors
          · simp only [hth, if_true] at h
            exact absurd h (by simp)
          · simp only [hth, if_false] at h ⊢
            exact ih _ (ce + 1) _ h

/-- When the batch loop runs to completion (`normal` exit) every call of
the batch has produced a result carrying its id. -/
theorem processCalls_normal_cover (env : Env) (calls : List ToolCall) :
    ∀ (acc : List ToolRes) (ce : Nat) (st : AgentState),
      (processCalls env calls acc ce st).2.2.2 = .normal →
      ∀ tc ∈ calls, tc.id ∈ (processCalls env calls acc ce st).1.map
        (fun r => r.tool_call_id) := by
  induction calls with
  | nil => intro acc ce st _ tc htc; cases htc
  | cons tc0 rest ih =>
    intro acc ce st h tc htc
    by_cases hc : readCancel env st.polls = true
    · rw [processCalls_cons_cancel env tc0 rest acc ce st hc] at h
      exact absurd h (by simp)
    · have hc' : readCancel env st.polls = false := by simpa using hc
      by_cases hd : approvalDenied env tc0 = true
      · rw [processCalls_cons_denied env tc0 rest acc ce st hc' hd] at h ⊢
        rcases List.mem_cons.mp htc with rfl | hrest
        · obtain ⟨extra, hextra⟩ := processCalls_acc_prefix env rest
            (acc ++ [rejectedResult tc.id]) ce { st with polls := st.polls + 1 }
          rw [hextra]
          simp [rejectedResult]
        · exact ih _ ce _ h tc hrest
      · have hd' : approvalDenied env tc0 = false := by simpa using hd
        rw [processCalls_cons_exec env tc0 rest acc ce st hc' hd'] at h ⊢
        set r := callResult env tc0 { st with polls := st.polls + 1 } with hr
        have hrid : r.tool_call_id = tc0.id := callResult_id env tc0 _
        by_cases hs : r.success
        · simp only [hs, if_true] at h ⊢
          rcases List.mem_cons.mp htc with rfl | hrest
          · obtain ⟨extra, hextra⟩ := processCalls_acc_prefix env rest
              (acc ++ [r]) 0 (afterCallState env tc { st with polls := st.polls + 1 })
            rw [hextra]
            simp [hrid]
          · exact ih _ 0 _ h tc hrest
        · simp only [hs, Bool.false_eq_true, if_false] at h ⊢
          by_cases hth : ce + 1 ≥ env.cfg.max_consecutive_errors
          · simp only [hth, if_true] at h
            exact absurd h (by simp)
          · simp only [hth, if_false] at h ⊢
            rcases List.mem_cons.mp htc with rfl | hrest
            · obtain ⟨extra, hextra⟩ := processCalls_acc_prefix env rest
                (acc ++ [r]) (ce + 1) (afterCallState env tc { st with polls := st.polls + 1 })
              rw [hextra]
              simp [hrid]
            · exact ih _ (ce + 1) _ h tc hrest

/-- When the cancel flag reads set at the backfill point, the backfilled
result list carries an id for every call of the batch. -/
theorem backfillCancelled_cover (env : Env) (calls : List ToolCall)
    (results : List ToolRes) (st : AgentState)
    (hc : readCancel env st.polls = true) :
    ∀ tc ∈ calls, tc.id ∈ (backfillCancelled env calls results st true).1.map
      (fun r => r.tool_call_id) := by
  intro tc htc
  simp only [backfillCancelled, hc, if_true, List.map_append]
  by_cases hin : (results.map (fun r => r.tool_call_id)).contains tc.id
  · rw [List.mem_append]
    left
    simpa [List.elem_iff] using hin
  · rw [List.mem_append]
    right
    have hkeep : tc ∈ calls.filter
        (fun tc' => ! (results.map (fun r => r.tool_call_id)).contains tc'.id) := by
      rw [List.mem_filter]
      exact ⟨htc, by simpa using hin⟩
    refine List.mem_map.mpr ?_
    exact ⟨cancelledResult tc.id, List.mem_map.mpr ⟨tc, hkeep, rfl⟩, rfl⟩

/-! ## Helper lemmas: structural validity -/

/-- A valid conversation's last message has no unmatched `tool_use`. -/
theorem structValidB_last_empty : ∀ (xs : List Message) (m : Message),
    structValidB (xs ++ [m]) = true → useIds m = [] := by
  intro xs
  induction xs with
  | nil =>
    intro m h
    simp only [List.nil_append, structValidB] at h
    exact List.isEmpty_iff.mp h
  | cons x xs ih =>
    intro m h
    cases xs with
    | nil =>
      simp only [List.cons_append, List.nil_append, structValidB,
        Bool.and_eq_true] at h
      simpa [structValidB] using List.isEmpty_iff.mp (by
        have := h.2
        simpa [structValidB] using this)
    | cons y ys =>
      simp only [List.cons_append, structValidB, Bool.and_eq_true] at h
      exact ih m (by simpa using h.2)

/-- Gluing two valid conversations keeps validity (a valid prefix ends
with no unmatched `tool_use`, so nothing constrains the junction). -/
theorem structValidB_append : ∀ (xs ys : List Message),
    structValidB xs = true → structValidB ys = true →
    structValidB (xs ++ ys) = true := by
  intro xs
  induction xs with
  | nil => intro ys _ hy; simpa using hy
  | cons x xs ih =>
    intro ys hx hy
    cases xs with
    | nil =>
      cases ys with
      | nil => simpa using hx
      | cons y ys' =>
        simp only [structValidB] at hx
        simp only [List.cons_append, List.nil_append, structValidB,
          Bool.and_eq_true]
        refine ⟨?_, hy⟩
        rw [List.isEmpty_iff.mp hx]
        rfl
    | cons x' xs' =>
      simp only [structValidB, Bool.and_eq_true] at hx
      simp only [List.cons_append, structValidB, Bool.and_eq_true]
      exact ⟨hx.1, by simpa using ih ys hx.2 hy⟩

theorem ThinkBlock.toBlock_no_use (tb : ThinkBlock) (id name : String) (input : Json) :
    tb.toBlock ≠ Block.toolUse id name input := by
  cases tb <;> simp [ThinkBlock.toBlock]

/-- The `tool_use` ids of the assistant message built from a response are
exactly the response's tool-call ids. -/
theorem useIds_buildAssistant (resp : Response) :
    useIds (Message.mk "assistant" (.blocks (buildAssistantContent resp))) =
      resp.tool_calls.map (fun tc => tc.id) := by
  simp only [useIds, buildAssistantContent]
  by_cases hempty : ((resp.thinking_blocks.getD []).map
      (fun tb => CBlock.mk tb.toBlock false) ++
      (if resp.content ≠ "" then [CBlock.mk (.text resp.content) false] else []) ++
      resp.tool_calls.map (fun tc => CBlock.mk (.toolUse tc.id tc.name tc.input) false)).isEmpty
  · rw [if_pos hempty]
    have := List.isEmpty_iff.mp hempty
    have htc : resp.tool_calls = [] := by
      rcases List.append_eq_nil.mp this with ⟨_, h2⟩
      exact List.map_eq_nil_iff.mp h2
    simp [htc]
  · rw [if_neg hempty]
    rw [List.filterMap_append, List.filterMap_append]
    have h1 : List.filterMap (fun cb => match cb.block with
        | Block.toolUse id _ _ => some id
        | _ => none)
        ((resp.thinking_blocks.getD []).map (fun tb => CBlock.mk tb.toBlock false)) = [] := by
      rw [List.filterMap_eq_nil_iff]
      intro cb hcb
      obtain ⟨tb, _, rfl⟩ := List.mem_map.mp hcb
      cases tb <;> simp [ThinkBlock.toBlock]
    have h2 : List.filterMap (fun cb => match cb.block with
        | Block.toolUse id _ _ => some id
        | _ => none)
        (if resp.content ≠ "" then [CBlock.mk (.text resp.content) false] else []) = [] := by
      split <;> simp
    have h3 : List.filterMap (fun cb => match cb.block with
        | Block.toolUse id _ _ => some id
        | _ => none)
        (resp.tool_calls.map (fun tc => CBlock.mk (.toolUse tc.id tc.name tc.input) false)) =
        resp.tool_calls.map (fun tc => tc.id) := by
      induction resp.tool_calls with
      | nil => rfl
      | cons t ts ih => simpa [List.filterMap_cons] using ih
    rw [h1, h2, h3]
    rfl

/-- The ids of the `tool_result` user message are exactly the ids of the
batch's results. -/
theorem resultIds_toolResultMsg (results : List ToolRes) :
    resultIds (Message.mk "user" (.blocks (results.map toolResultBlock))) =
      results.map (fun r => r.tool_call_id) := by
  simp only [resultIds]
  induction results with
  | nil => rfl
  | cons r rs ih => simpa [List.filterMap_cons, toolResultBlock] using ih

/-- A `tool_result` user message contains no `tool_use` blocks. -/
theorem useIds_toolResultMsg (results : List ToolRes) :
    useIds (Message.mk "user" (.blocks (results.map toolResultBlock))) = [] := by
  simp only [useIds]
  induction results with
  | nil => rfl
  | cons r rs ih => simp [List.filterMap_cons, toolResultBlock, ih]

theorem afterCallState_messages (env : Env) (tc : ToolCall) (st : AgentState) :
    (afterCallState env tc st).messages = st.messages := by
  simp only [afterCallState]
  split <;> rfl

theorem afterCallState_reqs (env : Env) (tc : ToolCall) (st : AgentState) :
    (afterCallState env tc st).reqs = st.reqs := by
  simp only [afterCallState]
  split <;> rfl

/-- The batch loop never touches the conversation or the request
counter. -/
theorem processCalls_frame (env : Env) (calls : List ToolCall) :
    ∀ (acc : List ToolRes) (ce : Nat) (st : AgentState),
      (processCalls env calls acc ce st).2.2.1.messages = st.messages ∧
      (processCalls env calls acc ce st).2.2.1.reqs = st.reqs := by
  induction calls with
  | nil => intro acc ce st; simp [processCalls]
  | cons tc rest ih =>
    intro acc ce st
    by_cases hc : readCancel env st.polls = true
    · rw [processCalls_cons_cancel env tc rest acc ce st hc]
      exact ⟨rfl, rfl⟩
    · have hc' : readCancel env st.polls = false := by simpa using hc
      by_cases hd : approvalDenied env tc = true
      · rw [processCalls_cons_denied env tc rest acc ce st hc' hd]
        exact ih _ ce _
      · have hd' : approvalDenied env tc = false := by simpa using hd
        rw [processCalls_cons_exec env tc rest acc ce st hc' hd']
        by_cases hs : (callResult env tc { st with polls := st.polls + 1 }).success
        · simp only [hs, if_true]
          have h := ih (acc ++ [callResult env tc { st with polls := st.polls + 1 }]) 0
            (afterCallState env tc { st with polls := st.polls + 1 })
          rw [afterCallState_messages, afterCallState_reqs] at h
          exact h
        · simp only [hs, Bool.false_eq_true, if_false]
          by_cases hth : ce + 1 ≥ env.cfg.max_consecutive_errors
          · simp only [hth, if_true]
            exact ⟨afterCallState_messages env tc _, afterCallState_reqs env tc _⟩
          · simp only [hth, if_false]
            have h := ih (acc ++ [callResult env tc { st with polls := st.polls + 1 }]) (ce + 1)
              (afterCallState env tc { st with polls := st.polls + 1 })
            rw [afterCallState_messages, afterCallState_reqs] at h
            exact h

/-- The backfill step only reads the cancel flag. -/
theorem backfillCancelled_frame (env : Env) (calls : List ToolCall)
    (results : List ToolRes) (st : AgentState) (shouldStop : Bool) :
    (backfillCancelled env calls results st shouldStop).2.messages = st.messages ∧
    (backfillCancelled env calls results st shouldStop).2.reqs = st.reqs := by
  simp only [backfillCancelled]
  split
  · split <;> exact ⟨rfl, rfl⟩
  · exact ⟨rfl, rfl⟩

/-- With no early stop the backfill step returns the results untouched. -/
theorem backfillCancelled_noStop (env : Env) (calls : List ToolCall)
    (results : List ToolRes) (st : AgentState) :
    backfillCancelled env calls results st false = (results, st) := by
  simp [backfillCancelled]

/-- Every non-`errorStop` exit of the iteration loop preserves the
structural validity of the conversation (hypothesis `hmodel`: decoded
responses carrying tool calls report `stop_reason = "tool_use"`, which is
what the stream decoder guarantees). -/
theorem chatLoop_structValid (env : Env)
    (hmodel : ∀ n, (env.model n).tool_calls ≠ [] →
      (env.model n).stop_reason = "tool_use") :
    ∀ (fuel ce : Nat) (st : AgentState), structValidB st.messages = true →
      (chatLoop env fuel ce st).2.2 ≠ .errorStop →
      structValidB (chatLoop env fuel ce st).2.1.messages = true := by
  intro fuel
  induction fuel with
  | zero => intro ce st h _; simpa [chatLoop] using h
  | succ fuel ih =>
    intro ce st hval hexit
    by_cases hc : readCancel env st.polls = true
    · simp only [chatLoop, hc, if_true]
      simpa using hval
    · have hc' : readCancel env st.polls = false := by simpa using hc
      simp only [chatLoop, hc', Bool.false_eq_true, if_false] at hexit ⊢
      set resp := env.model st.reqs with hresp
      by_cases hdone : (!(resp.stop_reason == "tool_use") || resp.tool_calls.isEmpty) = true
      · simp only [hdone, if_true]
        have hcalls : resp.tool_calls = [] := by
          rcases hcs : resp.tool_calls with _ | ⟨t, ts⟩
          · rfl
          · have hsr := hmodel st.reqs (by rw [← hresp, hcs]; simp)
            rw [← hresp] at hsr
            rw [hsr, hcs] at hdone
            simp at hdone
        have huse : useIds (Message.mk "assistant"
            (.blocks (buildAssistantContent resp))) = [] := by
          rw [useIds_buildAssistant, hcalls]
          rfl
        refine structValidB_append st.messages _ hval ?_
        simp [structValidB, huse]
      · have hdone' : (!(resp.stop_reason == "tool_use") || resp.tool_calls.isEmpty) = false := by
          simpa using hdone
        simp only [hdone', Bool.false_eq_true, if_false] at hexit ⊢
        have hcne : resp.tool_calls ≠ [] := by
          intro hnil
          rw [hnil] at hdone'
          simp at hdone'
        generalize hst2 : ({ st with
            messages := st.messages ++
              [Message.mk "assistant" (MsgContent.blocks (buildAssistantContent resp))],
            polls := st.polls + 1, reqs := st.reqs + 1 } : AgentState) = st2 at hexit ⊢
        have hst2m : st2.messages = st.messages ++
            [Message.mk "assistant" (MsgContent.blocks (buildAssistantContent resp))] := by
          rw [← hst2]
        rcases hpc : processCalls env resp.tool_calls [] ce st2 with ⟨results, ce2, st3, bexit⟩
        rw [hpc] at hexit
        dsimp only at hexit ⊢
        have hst3m : st3.messages = st2.messages := by
          have := (processCalls_frame env resp.tool_calls [] ce st2).1
          rw [hpc] at this
          exact this
        cases bexit with
        | normal =>
          dsimp only at hexit ⊢
          rw [backfillCancelled_noStop] at hexit ⊢
          dsimp only at hexit ⊢
          have hcover : ∀ tc ∈ resp.tool_calls,
              tc.id ∈ results.map (fun r => r.tool_call_id) := by
            intro tc htc
            have := processCalls_normal_cover env resp.tool_calls [] ce st2
              (by rw [hpc]) tc htc
            rw [hpc] at this
            exact this
          have hrne : results ≠ [] := by
            rcases hcs : resp.tool_calls with _ | ⟨t, ts⟩
            · exact absurd hcs hcne
            · intro hr
              have := hcover t (by rw [hcs]; exact List.mem_cons_self t ts)
              rw [hr] at this
              cases this
          have htrc : (results.map toolResultBlock).isEmpty = false := by
            rcases results with _ | ⟨r, rs⟩
            · exact absurd rfl hrne
            · rfl
          rw [htrc] at hexit ⊢
          simp only [Bool.false_eq_true, if_false] at hexit ⊢
          refine ih ce2 _ ?_ hexit
          dsimp only
          rw [hst3m, hst2m, List.append_assoc]
          refine structValidB_append st.messages _ hval ?_
          simp only [List.nil_append, structValidB, Bool.and_eq_true]
          refine ⟨?_, ?_⟩
          · rw [useIds_buildAssistant, resultIds_toolResultMsg]
            rw [List.all_eq_true]
            intro i hi
            obtain ⟨tc, htc, rfl⟩ := List.mem_map.mp hi
            exact List.elem_iff.mpr (hcover tc htc)
          · rw [useIds_toolResultMsg]
            rfl
        | stopped fr =>
          exact absurd rfl hexit
        | cancelledBreak =>
          dsimp only at hexit ⊢
          have hread : readCancel env st3.polls = true := by
            obtain ⟨i, hi, hlt⟩ := by
              have := processCalls_cancelledBreak_read env resp.tool_calls [] ce st2
                (by rw [hpc])
              rw [hpc] at this
              exact this
            exact readCancel_mono env hi (Nat.le_of_lt hlt)
          have hcover : ∀ tc ∈ resp.tool_calls, tc.id ∈
              (backfillCancelled env resp.tool_calls results st3 true).1.map
                (fun r => r.tool_call_id) :=
            backfillCancelled_cover env resp.tool_calls results st3 hread
          have hbfm : (backfillCancelled env resp.tool_calls results st3 true).2.messages =
              st3.messages :=
            (backfillCancelled_frame env resp.tool_calls results st3 true).1
          have hrne : (backfillCancelled env resp.tool_calls results st3 true).1 ≠ [] := by
            rcases hcs : resp.tool_calls with _ | ⟨t, ts⟩
            · exact absurd hcs hcne
            · intro hr
              have := hcover t (by rw [hcs]; exact List.mem_cons_self t ts)
              rw [hcs, hr] at this
              cases this
          have htrc : ((backfillCancelled env resp.tool_calls results st3 true).1.map
              toolResultBlock).isEmpty = false := by
            rcases hbf : (backfillCancelled env resp.tool_calls results st3 true).1 with _ | ⟨r, rs⟩
            · exact absurd hbf hrne
            · rfl
          rw [htrc]
          simp only [Bool.false_eq_true, if_false]
          rw [hbfm, hst3m, hst2m, List.append_assoc]
          refine structValidB_append st.messages _ hval ?_
          simp only [List.nil_append, structValidB, Bool.and_eq_true]
          refine ⟨?_, ?_⟩
          · rw [useIds_buildAssistant, resultIds_toolResultMsg]
            rw [List.all_eq_true]
            intro i hi
            obtain ⟨tc, htc, rfl⟩ := List.mem_map.mp hi
            exact List.elem_iff.mpr (hcover tc htc)
          · rw [useIds_toolResultMsg]
            rfl

/-- Scenario: one batch of four always-failing tool calls with
`max_consecutive_errors = 3`. -/
def envErrStopC2 : Env :=
  { cfg := { max_iterations := 3, max_consecutive_errors := 3, doom_loop_threshold := 3 }
    model := fun n =>
      if n = 0 then
        { content := "", stop_reason := "tool_use", usage := none, thinking_blocks := none,
          tool_calls := [⟨"i1", "a", .obj []⟩, ⟨"i2", "b", .obj []⟩,
                         ⟨"i3", "c", .obj []⟩, ⟨"i4", "d", .obj []⟩] }
      else
        { content := "done", stop_reason := "end_turn", usage := none,
          thinking_blocks := none, tool_calls := [] }
    execTool := fun _ _ => .raiseExc "RuntimeError" "boom"
    approve := none
    cancelAt := none }

/-- C2 is FALSE as stated: when the consecutive-error threshold fires in
the middle of a batch, `chat()` terminates leaving the last assistant
message's remaining `tool_use` blocks without a matching `tool_result`
(here: four tool_use blocks, only three results). -/
theorem error_stop_leaves_unmatched_tool_use :
    (chat envErrStopC2 [] [] "go").2.2 = ChatExit.errorStop ∧
    structValidB (chat envErrStopC2 [] [] "go").2.1.messages = false :=
  ⟨rfl, rfl⟩

/-- C2 (amended): on every termination of `chat()` other than a
consecutive-error stop, the conversation is left structurally valid —
every `tool_use` block of an appended assistant message is matched by id
in the user message appended after it. (A consecutive-error stop may
leave the calls after the stopping failure unmatched.) -/
theorem chat_structValid_unless_errorStop (env : Env) (msgs0 : List Message)
    (recent0 : List (String × String)) (user : String)
    (hmodel : ∀ n, (env.model n).tool_calls ≠ [] →
      (env.model n).stop_reason = "tool_use")
    (hval : structValidB msgs0 = true)
    (hexit : (chat env msgs0 recent0 user).2.2 ≠ .errorStop) :
    structValidB (chat env msgs0 recent0 user).2.1.messages = true := by
  unfold chat at hexit ⊢
  apply chatLoop_structValid env hmodel _ _ _ _ hexit
  refine structValidB_append msgs0 _ hval ?_
  rfl

/-- Scenario for the C2 witness: a successful tool batch followed by an
end turn. -/
def envOkC2 : Env :=
  { cfg := { max_iterations := 3, max_consecutive_errors := 3, doom_loop_threshold := 3 }
    model := fun n =>
      if n = 0 then
        { content := "", stop_reason := "tool_use", usage := none, thinking_blocks := none,
          tool_calls := [⟨"i1", "a", .obj []⟩, ⟨"i2", "b", .obj []⟩] }
      else
        { content := "done", stop_reason := "end_turn", usage := none,
          thinking_blocks := none, tool_calls := [] }
    execTool := fun _ _ => .ok (.str "ok")
    approve := none
    cancelAt := none }

/-- C2 amended witness: a concrete run ending in `endTurn` leaves the
conversation structurally valid. -/
theorem chat_structValid_unless_errorStop_witness :
    structValidB (chat envOkC2 [] [] "go").2.1.messages = true := by
  apply chat_structValid_unless_errorStop envOkC2 [] [] "go"
  · intro n hn
    rcases n with _ | m
    · rfl
    · exact absurd rfl hn
  · rfl
  · intro h
    rw [show (chat envOkC2 [] [] "go").2.2 = ChatExit.endTurn from rfl] at h
    cases h


/-- C10: a tool call denied by the approval callback gets an error
`ToolResult` with message "Tool call rejected by user" and the loop moves
to the next call with only the poll counter advanced: the Tool Dispatcher
is not invoked (`dispatches` unchanged), the doom-loop window is not
updated (`recent` unchanged), and the consecutive-error counter is
unchanged (a denial never counts toward `max_consecutive_errors`). -/
theorem approval_denied_behaviour (env : Env) (tc : ToolCall) (rest : List ToolCall)
    (acc : List ToolRes) (ce : Nat) (st : AgentState) (f : ToolCall → Bool)
    (ha : env.approve = some f) (hf : f tc = false)
    (hc : readCancel env st.polls = false) :
    processCalls env (tc :: rest) acc ce st =
      processCalls env rest (acc ++ [rejectedResult tc.id]) ce
        { st with polls := st.polls + 1 } ∧
    (rejectedResult tc.id).success = false ∧
    (rejectedResult tc.id).error = some "Tool call rejected by user" := by
  have hd : approvalDenied env tc = true := by simp [approvalDenied, ha, hf]
  exact ⟨processCalls_cons_denied env tc rest acc ce st hc hd, rfl, rfl⟩

/-- Environment for the C10 witness: every call is denied. -/
def envDenyC10 : Env :=
  { cfg := { max_iterations := 3, max_consecutive_errors := 3, doom_loop_threshold := 3 }
    model := fun _ =>
      { content := "done", stop_reason := "end_turn", usage := none,
        thinking_blocks := none, tool_calls := [] }
    execTool := fun _ _ => .ok (.str "ok")
    approve := some (fun _ => false)
    cancelAt := none }

/-- C10 witness: the denial equation at a concrete call and state. -/
theorem approval_denied_behaviour_witness :
    processCalls envDenyC10 [⟨"i1", "t", Json.obj []⟩] [] 0
        { messages := [], recent := [], polls := 0, reqs := 0, dispatches := [] } =
      processCalls envDenyC10 [] [rejectedResult "i1"] 0
        { messages := [], recent := [], polls := 1, reqs := 0, dispatches := [] } ∧
    (rejectedResult "i1").success = false ∧
    (rejectedResult "i1").error = some "Tool call rejected by user" := by
  have h := approval_denied_behaviour envDenyC10 ⟨"i1", "t", Json.obj []⟩ [] [] 0
    { messages := [], recent := [], polls := 0, reqs := 0, dispatches := [] }
    (fun _ => false) rfl rfl rfl
  simpa using h


/-- Scenario: a batch of three identical tool calls under the default
configuration (`doom_loop_threshold = 3`), all succeeding. -/
def envDoomC1 : Env :=
  { cfg := { max_iterations := 3, max_consecutive_errors := 3, doom_loop_threshold := 3 }
    model := fun n =>
      if n = 0 then
        { content := "", stop_reason := "tool_use", usage := none, thinking_blocks := none,
          tool_calls := [⟨"i1", "t", .obj []⟩, ⟨"i2", "t", .obj []⟩, ⟨"i3", "t", .obj []⟩] }
      else
        { content := "done", stop_reason := "end_turn", usage := none,
          thinking_blocks := none, tool_calls := [] }
    execTool := fun _ _ => .ok (.str "ok")
    approve := none
    cancelAt := none }

/-- C1 is FALSE as stated: with `doom_loop_threshold = 3` the 3rd
occurrence of the identical `(name, args)` call is still dispatched to
the Tool Dispatcher (all three identical calls appear in the dispatch
trace and the run ends normally) — `_is_doom_loop` counts only the
occurrences recorded before the current call, so the short-circuit first
fires on the 4th occurrence. -/
theorem doom_loop_third_call_dispatches :
    (chat envDoomC1 [] [] "go").2.1.dispatches =
      [⟨"i1", "t", Json.obj []⟩, ⟨"i2", "t", Json.obj []⟩, ⟨"i3", "t", Json.obj []⟩] ∧
    (chat envDoomC1 [] [] "go").2.1.recent =
      [("t", "\x7b\x7d"), ("t", "\x7b\x7d"), ("t", "\x7b\x7d")] ∧
    (chat envDoomC1 [] [] "go").2.2 = ChatExit.endTurn ∧
    (chat envDoomC1 [] [] "go").1 = "done" :=
  ⟨rfl, rfl, rfl, rfl⟩

/-- C1 (amended): with the cancel flag unset and no approval callback, a
tool call whose signature already occurs at least `doom_loop_threshold`
times among the (at most 10) recorded signatures — i.e. from its 4th
occurrence on, for threshold 3 — produces the doom-loop error result
without invoking the Tool Dispatcher, while a call with fewer prior
occurrences (the 2nd and 3rd occurrences included) is dispatched
normally; in every case the signature is appended to the sliding window,
which is trimmed to the last 10 entries. -/
theorem doom_loop_threshold_behaviour (env : Env) (tc : ToolCall) (acc : List ToolRes)
    (ce : Nat) (st : AgentState)
    (hc : readCancel env st.polls = false) (ha : env.approve = none) :
    ((processCalls env [tc] acc ce st).2.2.1.recent =
      (if (st.recent ++ [(tc.name, dumpsSorted tc.input)]).length > 10
       then (st.recent ++ [(tc.name, dumpsSorted tc.input)]).drop 1
       else st.recent ++ [(tc.name, dumpsSorted tc.input)])) ∧
    ((st.recent.filter (fun c => c = (tc.name, dumpsSorted tc.input))).length ≥
        env.cfg.doom_loop_threshold →
      (processCalls env [tc] acc ce st).1 = acc ++ [doomResult tc.id] ∧
      (processCalls env [tc] acc ce st).2.2.1.dispatches = st.dispatches) ∧
    ((st.recent.filter (fun c => c = (tc.name, dumpsSorted tc.input))).length <
        env.cfg.doom_loop_threshold →
      (processCalls env [tc] acc ce st).1 = acc ++ [executeTool env tc] ∧
      (processCalls env [tc] acc ce st).2.2.1.dispatches = st.dispatches ++ [tc]) := by
  have hd : approvalDenied env tc = false := by simp [approvalDenied, ha]
  have hstate : (processCalls env [tc] acc ce st).2.2.1 =
      afterCallState env tc { st with polls := st.polls + 1 } ∧
      (processCalls env [tc] acc ce st).1 =
        acc ++ [callResult env tc { st with polls := st.polls + 1 }] := by
    rw [processCalls_cons_exec env tc [] acc ce st hc hd]
    split
    · simp [processCalls]
    · split
      · simp
      · simp [processCalls]
  refine ⟨?_, ?_, ?_⟩
  · rw [hstate.1]
    simp only [afterCallState, isDoomLoop]
    split <;> rfl
  · intro hn
    have hb : (isDoomLoop env.cfg.doom_loop_threshold
        ({ st with polls := st.polls + 1 } : AgentState).recent tc).1 = true := by
      simp [isDoomLoop, hn]
    refine ⟨?_, ?_⟩
    · rw [hstate.2]
      simp [callResult, hb]
    · rw [hstate.1]
      simp [afterCallState, hb]
  · intro hn
    have hb : (isDoomLoop env.cfg.doom_loop_threshold
        ({ st with polls := st.polls + 1 } : AgentState).recent tc).1 = false := by
      simp [isDoomLoop]
      omega
    refine ⟨?_, ?_⟩
    · rw [hstate.2]
      simp [callResult, hb]
    · rw [hstate.1]
      simp [afterCallState, hb]

/-- Environment for the C1 witness. -/
def envDoomW : Env :=
  { cfg := { max_iterations := 3, max_consecutive_errors := 3, doom_loop_threshold := 3 }
    model := fun _ =>
      { content := "done", stop_reason := "end_turn", usage := none,
        thinking_blocks := none, tool_calls := [] }
    execTool := fun _ _ => .ok (.str "ok")
    approve := none
    cancelAt := none }

/-- C1 witness: with three prior occurrences recorded the call
short-circuits without dispatch; with none it dispatches. -/
theorem doom_loop_threshold_behaviour_witness :
    (processCalls envDoomW [⟨"i9", "t", Json.obj []⟩] [] 0
        { messages := [], recent := [("t", "\x7b\x7d"), ("t", "\x7b\x7d"), ("t", "\x7b\x7d")],
          polls := 0, reqs := 0, dispatches := [] }).1 = [doomResult "i9"] ∧
    (processCalls envDoomW [⟨"i9", "t", Json.obj []⟩] [] 0
        { messages := [], recent := [("t", "\x7b\x7d"), ("t", "\x7b\x7d"), ("t", "\x7b\x7d")],
          polls := 0, reqs := 0, dispatches := [] }).2.2.1.dispatches = [] ∧
    (processCalls envDoomW [⟨"i9", "t", Json.obj []⟩] [] 0
        { messages := [], recent := [], polls := 0, reqs := 0,
          dispatches := [] }).2.2.1.dispatches = [⟨"i9", "t", Json.obj []⟩] := by
  have h1 := doom_loop_threshold_behaviour envDoomW ⟨"i9", "t", Json.obj []⟩ [] 0
    { messages := [], recent := [("t", "\x7b\x7d"), ("t", "\x7b\x7d"), ("t", "\x7b\x7d")],
      polls := 0, reqs := 0, dispatches := [] } rfl rfl
  have h2 := doom_loop_threshold_behaviour envDoomW ⟨"i9", "t", Json.obj []⟩ [] 0
    { messages := [], recent := [], polls := 0, reqs := 0, dispatches := [] } rfl rfl
  refine ⟨?_, ?_, ?_⟩
  · have := (h1.2.1 (by decide)).1
    simpa using this
  · have := (h1.2.1 (by decide)).2
    simpa using this
  · have := (h2.2.2 (by decide)).2
    simpa using this


/-- Scenario for C3: a failing single-call batch followed by a failing
three-call batch; with `max_consecutive_errors = 3` the third consecutive
failure is the second call of the second batch. -/
def envErrStopC3 : Env :=
  { cfg := { max_iterations := 5, max_consecutive_errors := 3, doom_loop_threshold := 3 }
    model := fun n =>
      if n = 0 then
        { content := "", stop_reason := "tool_use", usage := none, thinking_blocks := none,
          tool_calls := [⟨"i0", "z", .obj []⟩] }
      else if n = 1 then
        { content := "", stop_reason := "tool_use", usage := none, thinking_blocks := none,
          tool_calls := [⟨"i1", "a", .obj []⟩, ⟨"i2", "b", .obj []⟩, ⟨"i3", "c", .obj []⟩] }
      else
        { content := "done", stop_reason := "end_turn", usage := none,
          thinking_blocks := none, tool_calls := [] }
    execTool := fun _ _ => .raiseExc "RuntimeError" "boom"
    approve := none
    cancelAt := none }

/-- C3 is FALSE in one conjunct: the loop does terminate on the third
consecutive failure without a further model request, but it does NOT
finish the current batch — the call after the stopping failure (`i3`)
is skipped and receives no `ToolResult`. -/
theorem error_stop_does_not_finish_batch :
    ((chat envErrStopC3 [] [] "go").2.1.messages.map useIds) =
      [[], ["i0"], [], ["i1", "i2", "i3"], []] ∧
    ((chat envErrStopC3 [] [] "go").2.1.messages.map resultIds) =
      [[], [], ["i0"], [], ["i1", "i2"]] ∧
    (chat envErrStopC3 [] [] "go").2.2 = ChatExit.errorStop :=
  ⟨rfl, rfl, rfl⟩

/-- C3 (amended): when a tool call fails and brings the consecutive-error
counter (carried across iterations of one `chat()` call) up to
`max_consecutive_errors`, the batch loop stops immediately after that
failing call — the results produced so far (ending with that failure)
are the batch's results, the remaining calls of the batch are skipped
with no results — and the loop terminates without issuing a further
model request (in the concrete run: two requests were made, none after
the stop; the third call of the stopping batch gets no `ToolResult`). -/
theorem consecutive_errors_stop_behaviour :
    (∀ (env : Env) (tc : ToolCall) (rest : List ToolCall) (acc : List ToolRes)
        (ce : Nat) (st : AgentState),
      readCancel env st.polls = false → approvalDenied env tc = false →
      (callResult env tc { st with polls := st.polls + 1 }).success = false →
      ce + 1 ≥ env.cfg.max_consecutive_errors →
      processCalls env (tc :: rest) acc ce st =
        (acc ++ [callResult env tc { st with polls := st.polls + 1 }], ce + 1,
         afterCallState env tc { st with polls := st.polls + 1 },
         .stopped ("Stopped due to repeated errors: " ++
           (callResult env tc { st with polls := st.polls + 1 }).error.getD "None"))) ∧
    (chat envErrStopC3 [] [] "go").2.1.reqs = 2 ∧
    (chat envErrStopC3 [] [] "go").2.2 = ChatExit.errorStop ∧
    (chat envErrStopC3 [] [] "go").1 =
      "Stopped due to repeated errors: RuntimeError: boom" ∧
    ((chat envErrStopC3 [] [] "go").2.1.messages.map resultIds) =
      [[], [], ["i0"], [], ["i1", "i2"]] := by
  refine ⟨?_, rfl, rfl, rfl, rfl⟩
  intro env tc rest acc ce st hc hd hfail hth
  rw [processCalls_cons_exec env tc rest acc ce st hc hd]
  simp [hfail, hth]

/-- C3 witness for the general conjunct: the stop equation at a concrete
failing call. -/
theorem consecutive_errors_stop_behaviour_witness :
    processCalls envErrStopC3 [⟨"i1", "a", Json.obj []⟩, ⟨"i2", "b", Json.obj []⟩] [] 2
        { messages := [], recent := [], polls := 0, reqs := 0, dispatches := [] } =
      ([callResult envErrStopC3 ⟨"i1", "a", Json.obj []⟩
          { messages := [], recent := [], polls := 1, reqs := 0, dispatches := [] }], 3,
        afterCallState envErrStopC3 ⟨"i1", "a", Json.obj []⟩
          { messages := [], recent := [], polls := 1, reqs := 0, dispatches := [] },
        .stopped "Stopped due to repeated errors: RuntimeError: boom") := by
  have h := consecutive_errors_stop_behaviour.1 envErrStopC3 ⟨"i1", "a", Json.obj []⟩
    [⟨"i2", "b", Json.obj []⟩] [] 2
    { messages := [], recent := [], polls := 0, reqs := 0, dispatches := [] }
    rfl rfl rfl (by decide)
  simpa using h

/-- Scenario for C4: a batch of three calls; the cancel flag is set after
the poll that precedes the first call, so it is first observed at the
poll before the second call. -/
def envCancelC4 : Env :=
  { cfg := { max_iterations := 3, max_consecutive_errors := 3, doom_loop_threshold := 3 }
    model := fun n =>
      if n = 0 then
        { content := "", stop_reason := "tool_use", usage := none, thinking_blocks := none,
          tool_calls := [⟨"i1", "a", .obj []⟩, ⟨"i2", "b", .obj []⟩, ⟨"i3", "c", .obj []⟩] }
      else
        { content := "done", stop_reason := "end_turn", usage := none,
          thinking_blocks := none, tool_calls := [] }
    execTool := fun _ _ => .ok (.str "ok")
    approve := none
    cancelAt := some 2 }

/-- C4 is FALSE in one conjunct: the scenario does execute exactly one
call and produce two "cancelled" results in the appended tool-results
message, but `chat()` returns the empty string, not the cancellation
sentinel `"[Cancelled by user]"` (the sentinel is only assigned at the
top-of-iteration cancellation check, which the mid-batch break never
reaches). -/
theorem cancellation_no_sentinel :
    (chat envCancelC4 [] [] "go").2.1.dispatches = [⟨"i1", "a", Json.obj []⟩] ∧
    (chat envCancelC4 [] [] "go").1 ≠ "[Cancelled by user]" ∧
    (chat envCancelC4 [] [] "go").2.2 = ChatExit.cancelledBatch := by
  refine ⟨rfl, ?_, rfl⟩
  rw [show (chat envCancelC4 [] [] "go").1 = "" from rfl]
  decide

/-- C4 (amended): with the cancel flag set while only the first of three
pending calls has been dispatched, exactly one call is executed, the two
remaining calls receive "Cancelled by user" error results, the user
message carrying all three results is appended, and `chat()` terminates
through the mid-batch cancellation break returning the empty string (the
sentinel `"[Cancelled by user]"` is returned only when cancellation is
observed at the top of an iteration). -/
theorem cancellation_mid_batch_behaviour :
    (chat envCancelC4 [] [] "go").2.1.dispatches = [⟨"i1", "a", Json.obj []⟩] ∧
    (chat envCancelC4 [] [] "go").2.1.messages =
      [Message.mk "user" (.str "go"),
       Message.mk "assistant" (.blocks
         [CBlock.mk (.toolUse "i1" "a" (Json.obj [])) false,
          CBlock.mk (.toolUse "i2" "b" (Json.obj [])) false,
          CBlock.mk (.toolUse "i3" "c" (Json.obj [])) false]),
       Message.mk "user" (.blocks
         [CBlock.mk (.toolResult "i1" "ok" false) false,
          CBlock.mk (.toolResult "i2" "Error: Cancelled by user" true) false,
          CBlock.mk (.toolResult "i3" "Error: Cancelled by user" true) false])] ∧
    (chat envCancelC4 [] [] "go").1 = "" ∧
    (chat envCancelC4 [] [] "go").2.2 = ChatExit.cancelledBatch :=
  ⟨rfl, rfl, rfl, rfl⟩


/-! ## Heap model for the frame property of cache annotation (C8) -/

/-- Content of a message dict as stored on the heap: a plain string or a
list of references to block dicts. -/
inductive MsgObjContent where
  | str (s : String)
  | blockRefs (addrs : List Nat)
deriving Repr

/-- A message dict object. -/
structure MsgObj where
  role : String
  content : MsgObjContent
deriving Repr

/-- The object store: message dicts, content-block dicts and tool dicts,
addressed by index; allocation appends, mutation is `List.set`. -/
structure PyHeap where
  msgs : List MsgObj
  blks : List CBlock
  tools : List ToolDefC
deriving Repr

def defaultMsgObj : MsgObj := ⟨"", .str ""⟩
def defaultBlk : CBlock := ⟨.text "", false⟩
def defaultToolObj : ToolDefC := ⟨"", "", .null, false⟩

/-- `copy.deepcopy` of a list of message dicts: every block dict and
message dict reachable from `root` is re-created at a fresh address
(appended to the stores); the accumulators carry the new blocks, new
messages and the new root built so far. -/
def copyAcc (h : PyHeap) :
    List Nat → List CBlock → List MsgObj → List Nat →
    List CBlock × List MsgObj × List Nat
  | [], nb, nm, nr => (nb, nm, nr)
  | a :: as', nb, nm, nr =>
    let m := (h.msgs.get? a).getD defaultMsgObj
    match m.content with
    | .str s =>
        copyAcc h as' nb (nm ++ [⟨m.role, .str s⟩]) (nr ++ [h.msgs.length + nm.length])
    | .blockRefs bs =>
        copyAcc h as'
          (nb ++ bs.map (fun b => (h.blks.get? b).getD defaultBlk))
          (nm ++ [⟨m.role,
            .blockRefs ((List.range bs.length).map (fun i => h.blks.length + nb.length + i))⟩])
          (nr ++ [h.msgs.length + nm.length])

def deepcopyMsgs (h : PyHeap) (root : List Nat) : PyHeap × List Nat :=
  let r := copyAcc h root [] [] []
  ({ h with blks := h.blks ++ r.1, msgs := h.msgs ++ r.2.1 }, r.2.2)

def setMsg (h : PyHeap) (a : Nat) (m : MsgObj) : PyHeap :=
  { h with msgs := h.msgs.set a m }

def setBlk (h : PyHeap) (a : Nat) (b : CBlock) : PyHeap :=
  { h with blks := h.blks.set a b }

def allocBlkH (h : PyHeap) (b : CBlock) : PyHeap × Nat :=
  ({ h with blks := h.blks ++ [b] }, h.blks.length)

/-- `_prepare_messages_with_cache` at the heap level: deep-copy the
stored messages, then mutate the copy — replace a string content by a
fresh one-block list carrying the marker, or set `cache_control` on the
copy of the last block of the last message. -/
def prepareMessagesWithCacheH (h : PyHeap) (root : List Nat) : PyHeap × List Nat :=
  if root.isEmpty then (h, [])
  else
    let c := deepcopyMsgs h root
    let h1 := c.1
    let root' := c.2
    match root'.getLast? with
    | none => (h1, root')
    | some la =>
      let m := (h1.msgs.get? la).getD defaultMsgObj
      match m.content with
      | .str s =>
          let ab := allocBlkH h1 ⟨.text s, true⟩
          (setMsg ab.1 la ⟨m.role, .blockRefs [ab.2]⟩, root')
      | .blockRefs bs =>
          match bs.getLast? with
          | none => (h1, root')
          | some lb =>
              let b := (h1.blks.get? lb).getD defaultBlk
              (setBlk h1 lb { b with cache := true }, root')

/-- `_make_tools_with_cache` at the heap level: `[t.copy() for t in
tools]` allocates a fresh dict per tool, and `{**last, cache_control}`
allocates one more; no existing address is written. -/
def makeToolsWithCacheH (h : PyHeap) (root : List Nat) (enableCaching : Bool) :
    PyHeap × Option (List Nat) :=
  if root.isEmpty then (h, none)
  else if !enableCaching then (h, some root)
  else
    let vals := root.map (fun a => (h.tools.get? a).getD defaultToolObj)
    let base := h.tools.length
    let refs := (List.range root.length).map (fun i => base + i)
    match vals.getLast? with
    | none => (h, some root)
    | some lastVal =>
        ({ h with tools := h.tools ++ vals ++ [{ lastVal with cache := true }] },
         some (refs.dropLast ++ [base + root.length]))

/-- Every address in the new root produced by `copyAcc` either was
already accumulated or is fresh; every copied message's block references
are fresh. -/
theorem copyAcc_fresh (h : PyHeap) : ∀ (root : List Nat) (nb : List CBlock)
    (nm : List MsgObj) (nr : List Nat),
    (∀ x ∈ (copyAcc h root nb nm nr).2.2, x ∈ nr ∨ h.msgs.length ≤ x) ∧
    (∀ m ∈ (copyAcc h root nb nm nr).2.1, m ∈ nm ∨
      (∀ bs, m.content = .blockRefs bs → ∀ r ∈ bs, h.blks.length ≤ r)) := by
  intro root
  induction root with
  | nil => intro nb nm nr; exact ⟨fun x hx => Or.inl hx, fun m hm => Or.inl hm⟩
  | cons a as' ih =>
    intro nb nm nr
    simp only [copyAcc]
    cases hmc : ((h.msgs.get? a).getD defaultMsgObj).content with
    | str s =>
      constructor
      · intro x hx
        rcases ((ih _ _ _).1 x hx) with hin | hge
        · rcases List.mem_append.mp hin with h1 | h1
          · exact Or.inl h1
          · simp only [List.mem_singleton] at h1
            omega
        · exact Or.inr hge
      · intro m hm
        rcases ((ih _ _ _).2 m hm) with hin | hfresh
        · rcases List.mem_append.mp hin with h1 | h1
          · exact Or.inl h1
          · simp only [List.mem_singleton] at h1
            subst h1
            refine Or.inr ?_
            intro bs hbs
            cases hbs
        · exact Or.inr hfresh
    | blockRefs bs0 =>
      constructor
      · intro x hx
        rcases ((ih _ _ _).1 x hx) with hin | hge
        · rcases List.mem_append.mp hin with h1 | h1
          · exact Or.inl h1
          · simp only [List.mem_singleton] at h1
            omega
        · exact Or.inr hge
      · intro m hm
        rcases ((ih _ _ _).2 m hm) with hin | hfresh
        · rcases List.mem_append.mp hin with h1 | h1
          · exact Or.inl h1
          · simp only [List.mem_singleton] at h1
            subst h1
            refine Or.inr ?_
            intro bs hbs r hr
            simp only [MsgObjContent.blockRefs.injEq] at hbs
            subst hbs
            obtain ⟨i, _, rfl⟩ := List.mem_map.mp hr
            omega
        · exact Or.inr hfresh

end IdaClaude

namespace IdaClaude

theorem prepareMessagesWithCacheH_frame (h : PyHeap) (root : List Nat) :
    (∀ a, a < h.msgs.length →
      (prepareMessagesWithCacheH h root).1.msgs.get? a = h.msgs.get? a) ∧
    (∀ b, b < h.blks.length →
      (prepareMessagesWithCacheH h root).1.blks.get? b = h.blks.get? b) ∧
    (prepareMessagesWithCacheH h root).1.tools = h.tools := by
  by_cases hroot : root.isEmpty
  · simp [prepareMessagesWithCacheH, hroot]
  · have hroot' : root.isEmpty = false := by simpa using hroot
    simp only [prepareMessagesWithCacheH, hroot', Bool.false_eq_true, if_false]
    have hmsgs1 : (deepcopyMsgs h root).1.msgs = h.msgs ++ (copyAcc h root [] [] []).2.1 := rfl
    have hblks1 : (deepcopyMsgs h root).1.blks = h.blks ++ (copyAcc h root [] [] []).1 := rfl
    have htools1 : (deepcopyMsgs h root).1.tools = h.tools := rfl
    cases hla : (deepcopyMsgs h root).2.getLast? with
    | none =>
      dsimp only
      refine ⟨?_, ?_, htools1⟩
      · intro a ha
        rw [hmsgs1, List.get?_append ha]
      · intro b hb
        rw [hblks1, List.get?_append hb]
    | some la =>
      dsimp only
      have hla_fresh : h.msgs.length ≤ la := by
        have hmem : la ∈ (copyAcc h root [] [] []).2.2 :=
          List.mem_of_mem_getLast? (by rw [show (copyAcc h root [] [] []).2.2 =
            (deepcopyMsgs h root).2 from rfl, hla]; rfl)
        rcases (copyAcc_fresh h root [] [] []).1 la hmem with hin | hge
        · cases hin
        · exact hge
      cases hmc : (((deepcopyMsgs h root).1.msgs.get? la).getD defaultMsgObj).content with
      | str s =>
        dsimp only
        refine ⟨?_, ?_, htools1⟩
        · intro a ha
          show (((allocBlkH (deepcopyMsgs h root).1 ⟨.text s, true⟩).1.msgs).set la _).get? a = _
          have hmA : (allocBlkH (deepcopyMsgs h root).1 ⟨.text s, true⟩).1.msgs =
              (deepcopyMsgs h root).1.msgs := rfl
          rw [hmA, List.get?_set_ne _ _ (by omega), hmsgs1, List.get?_append ha]
        · intro b hb
          show ((deepcopyMsgs h root).1.blks ++ [(⟨.text s, true⟩ : CBlock)]).get? b = _
          rw [hblks1, List.append_assoc, List.get?_append hb]
      | blockRefs bs =>
        dsimp only
        cases hlb : bs.getLast? with
        | none =>
          dsimp only
          refine ⟨?_, ?_, htools1⟩
          · intro a ha
            rw [hmsgs1, List.get?_append ha]
          · intro b hb
            rw [hblks1, List.get?_append hb]
        | some lb =>
          dsimp only
          have hlb_fresh : h.blks.length ≤ lb := by
            cases hget : (deepcopyMsgs h root).1.msgs.get? la with
            | none =>
              rw [hget] at hmc
              cases hmc
            | some m =>
              have hmem : m ∈ (copyAcc h root [] [] []).2.1 := by
                rw [hmsgs1, List.get?_append_right hla_fresh] at hget
                exact List.get?_mem hget
              rcases (copyAcc_fresh h root [] [] []).2 m hmem with hin | hfresh
              · cases hin
              · refine hfresh bs ?_ lb (List.mem_of_mem_getLast? (by rw [hlb]; rfl))
                rw [hget] at hmc
                exact hmc
          refine ⟨?_, ?_, htools1⟩
          · intro a ha
            show (deepcopyMsgs h root).1.msgs.get? a = _
            rw [hmsgs1, List.get?_append ha]
          · intro b hb
            show (((deepcopyMsgs h root).1.blks).set lb _).get? b = _
            rw [List.get?_set_ne _ _ (by omega), hblks1, List.get?_append hb]

theorem makeToolsWithCacheH_frame (h : PyHeap) (root : List Nat) (ec : Bool) :
    (makeToolsWithCacheH h root ec).1.msgs = h.msgs ∧
    (makeToolsWithCacheH h root ec).1.blks = h.blks ∧
    (∀ a, a < h.tools.length →
      (makeToolsWithCacheH h root ec).1.tools.get? a = h.tools.get? a) := by
  by_cases hroot : root.isEmpty
  · simp [makeToolsWithCacheH, hroot]
  · have hroot' : root.isEmpty = false := by simpa using hroot
    by_cases hec : ec
    · simp only [makeToolsWithCacheH, hroot', Bool.false_eq_true, if_false, hec,
        Bool.not_true]
      cases hvl : (root.map (fun a => (h.tools.get? a).getD defaultToolObj)).getLast? with
      | none => dsimp only; exact ⟨rfl, rfl, fun a _ => rfl⟩
      | some lastVal =>
        dsimp only
        refine ⟨rfl, rfl, ?_⟩
        intro a ha
        show (h.tools ++ _ ++ _).get? a = _
        rw [List.append_assoc, List.get?_append ha]
    · simp [makeToolsWithCacheH, hroot', hec]

/-- C8: building the annotated request mutates none of the caller's
stored objects. `_prepare_messages_with_cache` operates on a deep copy —
its only writes (`last_msg["content"] = [...]`, or
`last_block["cache_control"] = ...`) land on freshly allocated copies —
and `_make_tools_with_cache` only allocates (`t.copy()` per tool and a
fresh `{**last, cache_control}` dict): every pre-existing message dict,
block dict and tool dict reads back unchanged, for every heap and every
root. -/
theorem cache_annotation_no_mutation (h : PyHeap) (root troot : List Nat) (ec : Bool) :
    (∀ a, a < h.msgs.length →
      (prepareMessagesWithCacheH h root).1.msgs.get? a = h.msgs.get? a) ∧
    (∀ b, b < h.blks.length →
      (prepareMessagesWithCacheH h root).1.blks.get? b = h.blks.get? b) ∧
    (prepareMessagesWithCacheH h root).1.tools = h.tools ∧
    (makeToolsWithCacheH h troot ec).1.msgs = h.msgs ∧
    (makeToolsWithCacheH h troot ec).1.blks = h.blks ∧
    (∀ a, a < h.tools.length →
      (makeToolsWithCacheH h troot ec).1.tools.get? a = h.tools.get? a) := by
  obtain ⟨h1, h2, h3⟩ := prepareMessagesWithCacheH_frame h root
  obtain ⟨h4, h5, h6⟩ := makeToolsWithCacheH_frame h troot ec
  exact ⟨h1, h2, h3, h4, h5, h6⟩

/-- A concrete two-message heap for the C8 witness. -/
def heapW : PyHeap :=
  { msgs := [⟨"user", .str "hi"⟩, ⟨"assistant", .blockRefs [0]⟩],
    blks := [⟨.text "x", false⟩],
    tools := [⟨"t", "d", .null, false⟩] }

/-- C8 witness: on a concrete heap, the caller-visible entries are
unchanged by both annotation passes. -/
theorem cache_annotation_no_mutation_witness :
    (prepareMessagesWithCacheH heapW [0, 1]).1.msgs.get? 1 = heapW.msgs.get? 1 ∧
    (prepareMessagesWithCacheH heapW [0, 1]).1.blks.get? 0 = heapW.blks.get? 0 ∧
    (makeToolsWithCacheH heapW [0] true).1.tools.get? 0 = heapW.tools.get? 0 :=
  ⟨(cache_annotation_no_mutation heapW [0, 1] [0] true).1 1 (by decide),
   (cache_annotation_no_mutation heapW [0, 1] [0] true).2.1 0 (by decide),
   (cache_annotation_no_mutation heapW [0, 1] [0] true).2.2.2.2.2 0 (by decide)⟩


end IdaClaude
